import Mathlib

/-!
Verification of the BunOpenAPI middleware router (src/index.js) against its
natural-language specification.

The development shallowly embeds the contract-compilation phase (`routes()`)
and the per-request pipeline of the `BunOpenAPI` class.  JavaScript objects
are modelled by a mutual inductive `Json` type (objects keep field insertion
order, as JS objects do); in-place mutation is modelled by functions that
return the post-state of the mutated tree; `throw` is modelled with `Except`.
The external Ajv engine is modelled at its interface boundary: a compiled
validator is represented by the JSON schema it was compiled from, and the
behaviour of `validate` on data is an abstract oracle supplied to the request
pipeline.  `ajv.addSchema` rejects a duplicate key, as documented by Ajv.
-/

set_option maxRecDepth 4000

/-! ## JSON values (JavaScript objects)

`JsonFields` keeps key insertion order, like a JS object.  A property that is
absent is modelled by `none` on lookup; JS `undefined` stored by the source
code itself (it never stores `undefined` explicitly) does not occur.
-/

mutual
inductive Json where
  | null : Json
  | bool (b : Bool) : Json
  | num (n : Int) : Json
  | str (s : String) : Json
  | arr (elems : JsonList) : Json
  | obj (fields : JsonFields) : Json
deriving DecidableEq, Repr

inductive JsonList where
  | nil : JsonList
  | cons (hd : Json) (tl : JsonList) : JsonList
deriving DecidableEq, Repr

inductive JsonFields where
  | nil : JsonFields
  | cons (key : String) (val : Json) (tl : JsonFields) : JsonFields
deriving DecidableEq, Repr
end

/-- JavaScript exceptions thrown by the embedded code: `TypeError` from a
property access on `undefined`/a missing method, and the Ajv
`schema with key or id already exists` error from `addSchema`. -/
inductive JsErr where
  | typeError : JsErr
  | dupSchema (key : String) : JsErr
deriving DecidableEq, Repr

/-- Property lookup on a JS object: `none` models `undefined`. -/
def jget : JsonFields → String → Option Json
  | .nil, _ => none
  | .cons k v rest, key => if k = key then some v else jget rest key

/-- Property assignment on a JS object: an existing key keeps its position,
a new key is appended (JS insertion-order semantics). -/
def jset : JsonFields → String → Json → JsonFields
  | .nil, key, v => .cons key v .nil
  | .cons k w rest, key, v =>
      if k = key then .cons k v rest else .cons k w (jset rest key v)

/-- JS truthiness of a value (`NaN` is not representable here). -/
def truthy : Json → Bool
  | .null => false
  | .bool b => b
  | .num n => n != 0
  | .str s => s != ""
  | .arr _ => true
  | .obj _ => true

/-- Association-list lookup for maps that live outside `Json`
(`Map.get`, plain-object indexing on non-`Json` data). -/
def objGet {α : Type} : List (String × α) → String → Option α
  | [], _ => none
  | (k, v) :: rest, key => if k = key then some v else objGet rest key

/-- Association-list assignment with JS insertion-order semantics. -/
def objSet {α : Type} : List (String × α) → String → α → List (String × α)
  | [], key, v => [(key, v)]
  | (k, w) :: rest, key, v =>
      if k = key then (k, v) :: rest else (k, w) :: objSet rest key v

/-! ## String helpers

The JS string methods used by the source (`split('/').pop()`, `replace` of
`{name}` by `:name`, `includes`, `startsWith`, `toUpperCase`) are implemented
over character lists so that the kernel can evaluate them on literals. -/

def braceL : Char := Char.ofNat 123

def braceR : Char := Char.ofNat 125

/-- Characters of the last `/`-separated segment (`s.split('/').pop()`). -/
def lastSegChars : List Char → List Char → List Char
  | [], acc => acc.reverse
  | c :: rest, acc =>
      if c = '/' then lastSegChars rest [] else lastSegChars rest (c :: acc)

/-- JS `s.split('/').pop()` on a string. -/
def lastSeg (s : String) : String :=
  String.mk (lastSegChars s.data [])

/-- Does `needle` occur at the head of `hay`? -/
def leadMatch : List Char → List Char → Bool
  | [], _ => true
  | _ :: _, [] => false
  | n :: ns, h :: hs => n = h && leadMatch ns hs

def includesChars : List Char → List Char → Bool
  | needle, [] => leadMatch needle []
  | needle, h :: hs => leadMatch needle (h :: hs) || includesChars needle hs

/-- JS `hay.includes(needle)`. -/
def strIncludes (hay needle : String) : Bool :=
  includesChars needle.data hay.data

/-- JS `hay.startsWith(needle)`. -/
def strStarts (hay needle : String) : Bool :=
  leadMatch needle.data hay.data

def asciiUpper (c : Char) : Char :=
  if 'a' ≤ c && c ≤ 'z' then Char.ofNat (c.toNat - 32) else c

def asciiLower (c : Char) : Char :=
  if 'A' ≤ c && c ≤ 'Z' then Char.ofNat (c.toNat + 32) else c

/-- JS `s.toUpperCase()` (ASCII, which covers HTTP method names). -/
def strUpper (s : String) : String :=
  String.mk (s.data.map asciiUpper)

def strLower (s : String) : String :=
  String.mk (s.data.map asciiLower)

/-- Case-insensitive header lookup (`Headers.get`). -/
def headerGet (headers : List (String × String)) (name : String) : Option String :=
  match headers with
  | [] => none
  | (k, v) :: rest => if strLower k = strLower name then some v else headerGet rest name

/-- Case-insensitive header set (`Headers.set`). -/
def headerSet (headers : List (String × String)) (name v : String) : List (String × String) :=
  match headers with
  | [] => [(name, v)]
  | (k, w) :: rest =>
      if strLower k = strLower name then (k, v) :: rest else (k, w) :: headerSet rest name v

/-! ## Path template conversion

`openApiPath.replace(/{([^}]+)}/g, ":$1")`, line 231/241 of the source: each
`{name}` with a non-empty name (no `}` inside) becomes `:name`. -/

/-- Scan forward to the next closing brace, returning the characters before it
and the characters after it. -/
def takeToClose : List Char → Option (List Char × List Char)
  | [] => none
  | c :: rest =>
      if c = braceR then some ([], rest)
      else (takeToClose rest).map (fun p => (c :: p.1, p.2))

/-- Fuel-indexed worker for the template replacement; the wrapper always
supplies enough fuel (the string length bounds the number of steps). -/
def convertPathGo : Nat → List Char → List Char
  | 0, cs => cs
  | _ + 1, [] => []
  | fuel + 1, c :: rest =>
      if c = braceL then
        match takeToClose rest with
        | some (name, after) =>
            if name = [] then c :: convertPathGo fuel rest
            else ':' :: (name ++ convertPathGo fuel after)
        | none => c :: convertPathGo fuel rest
      else c :: convertPathGo fuel rest

/-- The host-router path for an OpenAPI path template (line 231). -/
def convertPath (s : String) : String :=
  String.mk (convertPathGo s.data.length s.data)

/-! ## `_rewriteRefs` (source lines 791–801)

The JS function mutates the tree in place: a truthy `$ref` value is replaced
by its last `/`-segment (throwing `TypeError` when that value has no `split`
method, i.e. is not a string), and every property value is visited
recursively.  The functional versions below return the post-state. -/

mutual

def rewriteRefs : Json → Except JsErr Json
  | .obj fields => Json.obj <$> rewriteFields fields
  | .arr xs => Json.arr <$> rewriteElems xs
  | j => .ok j
termination_by structural j => j

def rewriteFields : JsonFields → Except JsErr JsonFields
  | .nil => .ok .nil
  | .cons k v rest => do
      let v' ←
        if k = "$ref" && truthy v then
          match v with
          | .str s => .ok (Json.str (lastSeg s))
          | _ => .error .typeError
        else rewriteRefs v
      let rest' ← rewriteFields rest
      .ok (.cons k v' rest')
termination_by structural l => l

def rewriteElems : JsonList → Except JsErr JsonList
  | .nil => .ok .nil
  | .cons v rest => do
      let v' ← rewriteRefs v
      let rest' ← rewriteElems rest
      .ok (.cons v' rest')
termination_by structural l => l

end

/-! ## `_patchBinaryTypes` (source lines 804–818)

Two in-place edits on an object node, then recursion into the values of
`schema.properties`:
* `type === 'string' && format === 'binary'` ⇒ `type := ['string','object']`;
* otherwise, when `type === 'array'`, the code evaluates `schema.items.type`
  **unguarded** — if `items` is absent (or `null`) this is a property access
  on `undefined` and throws `TypeError`.
-/

/-- A JS property access `base.name` where `base` is the result of a previous
property lookup: access on `undefined`/`null` throws `TypeError`; on a
primitive it yields `undefined`; on an object it is a lookup. -/
def jsAccess : Option Json → String → Except JsErr (Option Json)
  | none, _ => .error .typeError
  | some .null, _ => .error .typeError
  | some (.obj fs), k => .ok (jget fs k)
  | some _, _ => .ok none

/-- The new value for the `type` property of one schema node, if any
(source lines 807–813); `throw`s exactly when the source does. -/
def patchTypeVal (fields : JsonFields) : Except JsErr (Option Json) :=
  let t := jget fields "type"
  if t = some (.str "string") && jget fields "format" = some (.str "binary") then
    .ok (some (.arr (.cons (.str "string") (.cons (.str "object") .nil))))
  else if t = some (.str "array") then do
    let it ← jsAccess (jget fields "items") "type"
    if it = some (.str "string") then do
      let fmt ← jsAccess (jget fields "items") "format"
      if fmt = some (.str "binary") then
        .ok (some (.arr (.cons (.str "array") (.cons (.str "object") .nil))))
      else .ok none
    else .ok none
  else .ok none

mutual

def patchBinaryTypes : Json → Except JsErr Json
  | .obj fields => do
      let newType ← patchTypeVal fields
      let fields1 ← patchOwnProps fields
      match newType with
      | some t => .ok (.obj (jset fields1 "type" t))
      | none => .ok (.obj fields1)
  | j => .ok j
termination_by structural j => j

/-- Visit the fields of one schema node: only the value of `properties` is
recursed into (`for key in schema.properties || {}`). -/
def patchOwnProps : JsonFields → Except JsErr JsonFields
  | .nil => .ok .nil
  | .cons k v rest => do
      let v' ← if k = "properties" then patchChildren v else .ok v
      let rest' ← patchOwnProps rest
      .ok (.cons k v' rest')
termination_by structural l => l

/-- Patch every child of a `properties` value.  A non-object, non-array value
iterates nothing (`for…in` over a primitive; character positions of a string
are primitives and patching a primitive is the identity). -/
def patchChildren : Json → Except JsErr Json
  | .obj pfs => Json.obj <$> patchFields pfs
  | .arr xs => Json.arr <$> patchElems xs
  | v => .ok v
termination_by structural j => j

def patchFields : JsonFields → Except JsErr JsonFields
  | .nil => .ok .nil
  | .cons k v rest => do
      let v' ← patchBinaryTypes v
      let rest' ← patchFields rest
      .ok (.cons k v' rest')
termination_by structural l => l

def patchElems : JsonList → Except JsErr JsonList
  | .nil => .ok .nil
  | .cons v rest => do
      let v' ← patchBinaryTypes v
      let rest' ← patchElems rest
      .ok (.cons v' rest')
termination_by structural l => l

end

/-! ## Component-schema registration (source lines 213–222)

For each component schema `s` the source computes
`patched = this._rewriteRefs({ ...s })` — a **shallow** copy — then
`this._patchBinaryTypes(patched)` and `this.ajv.addSchema(patched, name)`.

The copy that reaches Ajv is `patchBinaryTypes (rewriteRefs s)`.

Because the copy is shallow, every mutation **below** the top level happens on
nodes shared with the original document: nested `$ref` strings are rewritten
in place, and the children of the top-level `properties` value are patched in
place.  Only the top-level `$ref` reassignment and the top-level `type`
reassignment land on the copy alone.  `origPostSchema` is the post-state of
the original component schema. -/

/-- Post-state of the original component schema after registration: each
top-level property value is `$ref`-rewritten in place (the top-level `$ref`
reassignment itself only touched the copy, and rewriting a string value is
the identity), then the `items` access of the binary-type patch may throw,
then the children of the `properties` value are patched in place. -/
def origPostFields : JsonFields → Except JsErr JsonFields
  | .nil => .ok .nil
  | .cons k v rest => do
      let v' ← rewriteRefs v
      let rest' ← origPostFields rest
      .ok (.cons k v' rest')

def origPostSchema (s : Json) : Except JsErr Json :=
  match s with
  | .obj fs => do
      let fs1 ← origPostFields fs
      let _ ← patchTypeVal fs1
      let fs2 ← patchOwnProps fs1
      .ok (.obj fs2)
  | j => .ok j

/-- The Ajv schema registry: key → registered (patched-copy) schema.  A
compiled validator is represented by its schema. -/
abbrev Registry := List (String × Json)

/-- `ajv.addSchema(schema, key)`: Ajv throws when the key already exists. -/
def ajvAddSchema (reg : Registry) (key : String) (s : Json) : Except JsErr Registry :=
  if (objGet reg key).isSome then .error (.dupSchema key)
  else .ok (objSet reg key s)

/-- The `for (const schemaName in componentSchemas)` loop of `routes()`
(lines 216–221).  Returns the grown registry together with the post-states of
the original component schemas (the in-place mutations described above). -/
def registerSchemas (reg : Registry) :
    List (String × Json) → Except JsErr (Registry × List (String × Json))
  | [] => .ok (reg, [])
  | (name, s) :: rest => do
      let r ← rewriteRefs s
      let p ← patchBinaryTypes r
      let reg' ← ajvAddSchema reg name p
      let sPost ← origPostSchema s
      let (regF, restPost) ← registerSchemas reg' rest
      .ok (regF, (name, sPost) :: restPost)

/-! ## The contract data model

Typed shapes for the parts of the OpenAPI document that `routes()` reads.
Raw schemas stay `Json` (the code passes them through untyped).  `Option`
models an absent property. -/

/-- One entry of `operation.parameters`. -/
structure Param where
  name : String
  loc : String
  required : Bool
  schema : Option Json
deriving DecidableEq, Repr

/-- `operation.requestBody`: media type → its `schema` (a media object
without a schema collapses to `none`). -/
structure RequestBody where
  content : List (String × Option Json)
deriving DecidableEq, Repr

/-- A security requirement object: scheme name → scope list.  The source
reads `Object.keys(requirement)[0]` and `requirement[schemeName] || []`. -/
abbrev Requirement := List (String × List String)

structure Operation where
  operationId : Option String
  parameters : List Param
  requestBody : Option RequestBody
  responses : List (String × Option Json)
  security : Option (List Requirement)
deriving DecidableEq, Repr

/-- One path item: method name (or other key) → operation; `none` models a
key whose value is falsy (`if (!operation) continue`). -/
abbrev PathItem := List (String × Option Operation)

structure Contract where
  componentSchemas : Option (List (String × Json))
  security : Option (List Requirement)
  paths : List (String × PathItem)
deriving DecidableEq, Repr

/-- The compiled-validator bundle of one operation (`_compileValidators`).
A compiled Ajv validator is represented by its schema; a `none` in
`responses` is the explicit `null` validator ("documented, no JSON body"). -/
structure Validators where
  query : Option Json
  path : Option Json
  body : Option Json
  responses : List (String × Option Json)
deriving DecidableEq, Repr

/-- `console.warn` calls of the build phase, as observable events. -/
inductive Warning where
  | routeConflict (earlier later bunPath : String)
  | missingOperationId (method bunPath : String)
  | refNotFound (key : String)
  | contentOn204or304 (status opId : String)
  | responseSchemaNotFound (opId status : String)
deriving DecidableEq, Repr

/-! ## `_convertParamsToSchema` (source lines 771–788) -/

def paramProps : List Param → JsonFields → JsonFields
  | [], acc => acc
  | p :: rest, acc => paramProps rest (jset acc p.name (p.schema.getD (.obj .nil)))

def requiredNames : List Param → JsonList
  | [] => .nil
  | p :: rest =>
      if p.required then .cons (.str p.name) (requiredNames rest) else requiredNames rest

/-- The synthetic object schema for a parameter list. -/
def convertParamsToSchema (params : List Param) : Json :=
  .obj (.cons "type" (.str "object")
       (.cons "required" (.arr (requiredNames params))
       (.cons "properties" (.obj (paramProps params .nil))
       (.cons "additionalProperties" (.bool true) .nil))))

/-! ## `_compileValidators` (source lines 658–750) -/

def contentSchema (rb : RequestBody) (ct : String) : Option Json :=
  (objGet rb.content ct).bind id

/-- The `$ref` property of a schema value; indexing a primitive yields
`undefined`. -/
def refOf (s : Json) : Option Json :=
  match s with
  | .obj fs => jget fs "$ref"
  | _ => none

/-- Request-body compilation (lines 661–694): choose the schema by content
type (`application/json`, else `multipart/form-data`, else urlencoded — the
`isMultiPart` flag is set as soon as the JSON lookup fails, exactly as in the
source); resolve a truthy `$ref` through the registry, otherwise patch (when
`isMultiPart`) **in place on the document node** and compile inline.  Returns
the validator, the post-state of the request body, and warnings. -/
def compileBody (reg : Registry) (rb : RequestBody) :
    Except JsErr (Option Json × RequestBody × List Warning) :=
  let sJson := contentSchema rb "application/json"
  let isMultiPart := sJson.isNone
  let chosen : Option (String × Json) :=
    match sJson with
    | some s => some ("application/json", s)
    | none =>
        match contentSchema rb "multipart/form-data" with
        | some s => some ("multipart/form-data", s)
        | none =>
            match contentSchema rb "application/x-www-form-urlencoded" with
            | some s => some ("application/x-www-form-urlencoded", s)
            | none => none
  match chosen with
  | none => .ok (none, rb, [])
  | some (ct, s) =>
      match refOf s with
      | some rv =>
          if truthy rv then
            match rv with
            | .str rstr =>
                let key := lastSeg rstr
                match objGet reg key with
                | some compiled => .ok (some compiled, rb, [])
                | none => .ok (none, rb, [Warning.refNotFound key])
            | _ => .error .typeError
          else
            if isMultiPart then do
              let s' ← patchBinaryTypes s
              .ok (some s', { content := objSet rb.content ct (some s') }, [])
            else .ok (some s, rb, [])
      | none =>
          if isMultiPart then do
            let s' ← patchBinaryTypes s
            .ok (some s', { content := objSet rb.content ct (some s') }, [])
          else .ok (some s, rb, [])

/-- Response-validator compilation (lines 713–746). -/
def compileResponses (reg : Registry) (opId : String) :
    List (String × Option Json) → Except JsErr (List (String × Option Json) × List Warning)
  | [] => .ok ([], [])
  | (status, rs) :: rest => do
      let (entry, w) ←
        (match rs with
        | none => .ok ((status, (none : Option Json)), ([] : List Warning))
        | some s =>
            let w0 := if status = "204" || status = "304"
                      then [Warning.contentOn204or304 status opId] else []
            match refOf s with
            | some rv =>
                if truthy rv then
                  match rv with
                  | .str rstr =>
                      let key := lastSeg rstr
                      match objGet reg key with
                      | some compiled => .ok ((status, some compiled), w0)
                      | none => .ok ((status, (none : Option Json)),
                                     w0 ++ [Warning.responseSchemaNotFound opId status])
                  | _ => (.error .typeError : Except JsErr ((String × Option Json) × List Warning))
                else .ok ((status, some s), w0)
            | none => .ok ((status, some s), w0) : Except JsErr ((String × Option Json) × List Warning))
      let (restC, wr) ← compileResponses reg opId rest
      .ok (entry :: restC, w ++ wr)

/-- Full validator compilation for one operation.  Also returns the
post-state of the operation: its request body may have been patched in place
(line 688 patches the document's schema node directly, with no copy). -/
def compileValidators (reg : Registry) (op : Operation) :
    Except JsErr (Validators × Operation × List Warning) := do
  let (bodyV, postRB, w1) ←
    (match op.requestBody with
    | some rb => do
        let (v, rb', w) ← compileBody reg rb
        .ok (v, some rb', w)
    | none => .ok (none, none, []) :
        Except JsErr (Option Json × Option RequestBody × List Warning))
  let queryParams := op.parameters.filter (fun p => p.loc = "query")
  let pathParams := op.parameters.filter (fun p => p.loc = "path")
  let queryV := if op.parameters.length > 0 && queryParams.length > 0
                then some (convertParamsToSchema queryParams) else none
  let pathV := if op.parameters.length > 0 && pathParams.length > 0
               then some (convertParamsToSchema pathParams) else none
  let (respVs, w2) ← compileResponses reg (op.operationId.getD "") op.responses
  .ok ({ query := queryV, path := pathV, body := bodyV, responses := respVs },
       { op with requestBody := postRB }, w1 ++ w2)

/-! ## The route table (`routes()`, lines 190–569) -/

/-- The data captured by one generated route closure. -/
structure OpEntry where
  openApiPath : String
  bunPath : String
  method : String
  operationId : String
  validators : Validators
  security : List Requirement
deriving DecidableEq, Repr

inductive RouteEntry where
  | op (e : OpEntry)
  | preflight
deriving DecidableEq, Repr

abbrev MethodMap := List (String × RouteEntry)

inductive RouteVal where
  | methods (m : MethodMap)
  | catchAll
deriving DecidableEq, Repr

abbrev RouteTable := List (String × RouteVal)

def httpMethods : List String :=
  ["get", "post", "put", "delete", "patch", "head", "options", "trace"]

/-- JS truthiness of `operation.operationId` (line 256, `if (!operationId)`). -/
def idTruthy : Option String → Bool
  | none => false
  | some s => s != ""

/-- The pre-build conflict scan (lines 227–237).  `routes0` is the `routes`
object consulted by the guard — at this point in the source it is still the
empty object, so the scan is invoked with `routes0 = []` below. -/
def preBuildScan (routes0 : RouteTable) :
    List (String × PathItem) → List (String × String) → List Warning
  | [], _ => []
  | (p, _) :: rest, pathMap =>
      let bunPath := convertPath p
      let w := if (objGet routes0 bunPath).isSome && objGet pathMap bunPath != some p
               then [Warning.routeConflict ((objGet pathMap bunPath).getD "") p bunPath]
               else []
      w ++ preBuildScan routes0 rest (objSet pathMap bunPath p)

/-- The per-method loop of one path item (lines 245–516): skip keys that are
not HTTP methods, skip falsy operations, warn and skip operations without a
truthy `operationId`, otherwise compile validators, compute the effective
security (`operation.security ?? globalSecurity`) and register the entry
(overwriting any entry already at that method key). -/
def buildMethods (reg : Registry) (globalSec : List Requirement)
    (openApiPath bunPath : String) :
    List (String × Option Operation) → MethodMap →
    Except JsErr (MethodMap × List (String × Option Operation) × List Warning)
  | [], m => .ok (m, [], [])
  | (method, oop) :: rest, m =>
      if method ∈ httpMethods then
        match oop with
        | none => do
            let (mF, postRest, w) ← buildMethods reg globalSec openApiPath bunPath rest m
            .ok (mF, (method, none) :: postRest, w)
        | some op =>
            let upper := strUpper method
            if idTruthy op.operationId then do
              let (v, opPost, w0) ← compileValidators reg op
              let eff := op.security.getD globalSec
              let ed : OpEntry :=
                { openApiPath := openApiPath, bunPath := bunPath,
                  method := upper, operationId := op.operationId.getD "",
                  validators := v, security := eff }
              let entry := RouteEntry.op ed
              let (mF, postRest, w) ←
                buildMethods reg globalSec openApiPath bunPath rest (objSet m upper entry)
              .ok (mF, (method, some opPost) :: postRest, w0 ++ w)
            else do
              let (mF, postRest, w) ← buildMethods reg globalSec openApiPath bunPath rest m
              .ok (mF, (method, some op) :: postRest,
                   Warning.missingOperationId upper bunPath :: w)
      else do
        let (mF, postRest, w) ← buildMethods reg globalSec openApiPath bunPath rest m
        .ok (mF, (method, oop) :: postRest, w)

/-- The outer loop over `doc.paths` (lines 239–526): per path, fetch or
create the method map at the converted path, build the methods, then assign
the synthetic `OPTIONS` preflight entry. -/
def buildPaths (reg : Registry) (globalSec : List Requirement) :
    List (String × PathItem) → List (String × MethodMap) →
    Except JsErr (List (String × MethodMap) × List (String × PathItem) × List Warning)
  | [], acc => .ok (acc, [], [])
  | (p, item) :: rest, acc => do
      let bunPath := convertPath p
      let m0 := (objGet acc bunPath).getD []
      let (m1, postItem, w1) ← buildMethods reg globalSec p bunPath item m0
      let m2 := objSet m1 "OPTIONS" .preflight
      let (accF, postRest, wr) ← buildPaths reg globalSec rest (objSet acc bunPath m2)
      .ok (accF, (p, postItem) :: postRest, w1 ++ wr)

structure BuildOut where
  table : RouteTable
  registry : Registry
  postDoc : Contract
  warnings : List Warning
deriving DecidableEq, Repr

/-- `routes()` for an in-memory definition object (lines 203–568): register
component schemas with Ajv, run the pre-build conflict scan, build every
path's method map, and finish with the catch-all `'/*'` entry.  Returns the
table, the grown Ajv registry, the post-state of the (mutated) document,
and the emitted warnings. -/
def buildRoutes (doc : Contract) (reg : Registry) : Except JsErr BuildOut := do
  let (reg1, postComps) ←
    (match doc.componentSchemas with
    | some cs => do
        let (r, pcs) ← registerSchemas reg cs
        .ok (r, some pcs)
    | none => .ok (reg, none) :
        Except JsErr (Registry × Option (List (String × Json))))
  let globalSec := doc.security.getD []
  let warns0 := preBuildScan [] doc.paths []
  let (t1, postPaths, warns1) ← buildPaths reg1 globalSec doc.paths []
  let table := objSet (t1.map (fun kv => (kv.1, RouteVal.methods kv.2))) "/*" .catchAll
  .ok { table := table, registry := reg1,
        postDoc := { componentSchemas := postComps, security := doc.security,
                     paths := postPaths },
        warnings := warns0 ++ warns1 }

/-! ## Responses and the error responder (`_createErrorResponse`, lines 572–655) -/

/-- A `Response` as observed by the pipeline: status, headers, and the value
`response.clone().json()` would yield (`none` when the body is absent or not
JSON, in which case `json()` rejects). -/
structure Resp where
  status : Nat
  headers : List (String × String)
  jsonBody : Option Json
deriving DecidableEq, Repr

def jsonListOf : List Json → JsonList
  | [] => .nil
  | j :: rest => .cons j (jsonListOf rest)

/-- Redaction of one Ajv error detail in non-development mode (lines
580–584): keep only `message` and `keyword`.  A property that is absent on
the detail is omitted (its value would be `undefined`, which JSON
serialization drops). -/
def redactDetail (e : Json) : Json :=
  match e with
  | .obj fs =>
      .obj ((match jget fs "message" with
             | some v => JsonFields.cons "message" v
             | none => id)
            ((match jget fs "keyword" with
              | some v => JsonFields.cons "keyword" v
              | none => id) .nil))
  | _ => .obj .nil

/-- The fixed terse message substituted for status classes (lines 632–644);
only reached when `status ≥ 400`. -/
def terseMessage (status : Nat) : String :=
  if status = 401 then "Authentication required or token is invalid."
  else if status = 403 then "You are forbidden from accessing this resource."
  else if status = 404 then "Resource not found."
  else if status < 500 then "The request data is invalid or missing required parameters."
  else "An unexpected server error occurred."

/-- Outcome of a registered custom error formatter: a `Response`, a plain
object (JSON-wrapped), any other value (falls through to the built-in
formatter), or a throw (logged; built-in fallback). -/
inductive EHOut where
  | resp (r : Resp)
  | objOut (o : Json)
  | other
  | thrown

structure ErrInfo where
  status : Nat
  code : String
  message : String
  details : List Json

abbrev ErrHandler := ErrInfo → EHOut

/-- The request context handed to handlers.  `params`, `query` and `body` are
JS objects mutated in place by Ajv's type coercion; the pipeline threads the
coerced values. -/
structure Ctx where
  headers : List (String × String)
  url : String
  method : String
  params : Json
  query : Json
  body : Json
  cookies : List (String × String)

/-- The per-request mutable `securityContext` object. -/
abbrev SecCtx := JsonFields

/-- What a security handler's settled promise did: returned a value
(distinguishing exact `true`, exact `false`, a `Response`, and any other
value such as a user object or the string `'true'`), threw a `Response`, or
threw anything else. -/
inductive SecRet where
  | vTrue
  | vFalse
  | vResponse (r : Resp)
  | vOther (v : Json)
deriving DecidableEq, Repr

inductive SecResult where
  | ret (v : SecRet)
  | thrown
  | thrownResponse (r : Resp)
deriving DecidableEq, Repr

/-- A registered security handler: receives the request context, the required
scopes, and the security context, which it may mutate (returned updated). -/
abbrev SecHandler := Ctx → List String → SecCtx → SecResult × SecCtx

inductive HandlerOut where
  | ok (r : Resp)
  | thrown

/-- A registered operation handler. -/
abbrev OpHandler := Ctx → SecCtx → HandlerOut

/-- The Ajv engine at its interface boundary: `validate` runs a compiled
schema on data, `errorsOf` is `validator.errors` after a failed run, and
`coerce` is the in-place type coercion `coerceTypes: true` performs on the
validated object. -/
structure AjvOracle where
  validate : Json → Json → Bool
  errorsOf : Json → Json → List Json
  coerce : Json → Json → Json

/-- The router instance state read by the request pipeline (the `strict`
flag, `this.strictResponseValidation`, is passed separately). -/
structure RouterCfg where
  operations : List (String × OpHandler)
  securityHandlers : List (String × SecHandler)
  development : Bool
  corsHeaders : List (String × String)
  errorHandler : Option ErrHandler
  ajv : AjvOracle

/-- Headers of `Response.json(body, …)` in the error responder:
`{...CORS_HEADERS, 'Content-Type': 'application/json'}`. -/
def errHeaders (cors : List (String × String)) : List (String × String) :=
  objSet (cors.foldl (fun acc kv => objSet acc kv.1 kv.2) []) "Content-Type" "application/json"

/-- Attach CORS headers to an outgoing response (`headers.set` per entry). -/
def withCors (cors : List (String × String)) (r : Resp) : Resp :=
  { r with headers := cors.foldl (fun hs kv => headerSet hs kv.1 kv.2) r.headers }

/-- The error responder (lines 572–655).  With a registered custom formatter
the formatter runs first on the (verbosity-redacted) details; otherwise the
built-in body applies: `isVerbose = development && details.length > 0`; a
verbose body is `{code, message, details}`; otherwise, for `status ≥ 400`,
`code` is deleted and `message` replaced by the fixed status-class string. -/
def createErrorResponse (cfg : RouterCfg) (status : Nat) (code msg : String)
    (details : List Json) : Resp :=
  let safeDetails := if cfg.development then details else details.map redactDetail
  let builtin : Resp :=
    let isVerbose := cfg.development && details.length > 0
    let body : JsonFields :=
      if !isVerbose && status ≥ 400 then
        .cons "message" (.str (terseMessage status)) .nil
      else
        .cons "code" (.str code) (.cons "message" (.str msg)
          (if isVerbose then .cons "details" (.arr (jsonListOf safeDetails)) .nil else .nil))
    { status := status, headers := errHeaders cfg.corsHeaders, jsonBody := some (.obj body) }
  match cfg.errorHandler with
  | some eh =>
      match eh { status := status, code := code, message := msg, details := safeDetails } with
      | .resp r => withCors cfg.corsHeaders r
      | .objOut o => { status := status, headers := errHeaders cfg.corsHeaders,
                       jsonBody := some o }
      | .other => builtin
      | .thrown => builtin
  | none => builtin

/-! ## The request pipeline (the route closure, lines 266–515) -/

/-- Observable invocation events of one pipeline run. -/
inductive Event where
  | secCall (scheme : String) (scopes : List String) (result : SecResult)
  | opCall (operationId : String)
deriving DecidableEq, Repr

/-- Result of one pipeline run: the final response, the handler-invocation
trace, and — when the business handler ran and returned — its raw response
(before response validation and CORS finalization). -/
structure PipeOut where
  resp : Resp
  events : List Event
  dispatched : Option Resp
deriving DecidableEq, Repr

/-- One incoming request, as the closure observes it.  `jsonBody` is what
`req.json()` resolves to (`none`: it rejects); `formBody` the entry list of
`req.formData()`. -/
structure Req where
  params : List (String × String)
  urlPathname : String
  query : List (String × String)
  headers : List (String × String)
  jsonBody : Option Json
  formBody : Option (List (String × Json))
  method : String
  url : String

/-- JS `s.split(sep)` over characters. -/
def splitOnCharAux (sep : Char) : List Char → List Char → List (List Char)
  | [], acc => [acc.reverse]
  | c :: rest, acc =>
      if c = sep then acc.reverse :: splitOnCharAux sep rest []
      else splitOnCharAux sep rest (c :: acc)

/-- JS `s.split('/').filter(Boolean)`. -/
def splitSegs (s : String) : List String :=
  ((splitOnCharAux '/' s.data []).map String.mk).filter (fun x => x ≠ "")

def strEnds (hay needle : String) : Bool :=
  leadMatch needle.data.reverse hay.data.reverse

/-- JS `s.slice(1, -1)`. -/
def sliceInner (s : String) : String :=
  String.mk (s.data.drop 1).dropLast

/-- JS `s.slice(1)`. -/
def sliceFrom1 (s : String) : String :=
  String.mk (s.data.drop 1)

def segAt (segs : List String) (i : Nat) : Json :=
  match segs.get? i with
  | some s => .str s
  | none => .null

/-- Fallback path-parameter extraction (lines 272–288): positional matching
of template segments against path segments; an out-of-range path segment is
`undefined`, modelled as `null`. -/
def extractLoop (pathSegments : List String) : List String → Nat → JsonFields → JsonFields
  | [], _, acc => acc
  | t :: rest, i, acc =>
      let acc' :=
        if strStarts t (String.mk [braceL]) && strEnds t (String.mk [braceR]) then
          jset acc (sliceInner t) (segAt pathSegments i)
        else if strStarts t ":" then
          jset acc (sliceFrom1 t) (segAt pathSegments i)
        else acc
      extractLoop pathSegments rest (i + 1) acc'

def extractParams (openApiPath urlPathname : String) : JsonFields :=
  extractLoop (splitSegs urlPathname) (splitSegs openApiPath) 0 .nil

def trimChars (cs : List Char) : List Char :=
  ((cs.dropWhile Char.isWhitespace).reverse.dropWhile Char.isWhitespace).reverse

/-- `_parseCookies` (lines 753–768): split the `Cookie` header on `;`, trim,
split each part on `=`; parts with no `=` are skipped.  `decodeURIComponent`
is modelled as the identity. -/
def parseCookies (headers : List (String × String)) : List (String × String) :=
  match headerGet headers "cookie" with
  | none => []
  | some h =>
      (splitOnCharAux ';' h.data []).foldl (fun m cookie =>
        match splitOnCharAux '=' (trimChars cookie) [] with
        | [] => m
        | name :: rest =>
            if rest ≠ [] then
              objSet m (String.mk name) (String.intercalate "=" (rest.map String.mk))
            else m) []

def jsonListAppend : JsonList → Json → JsonList
  | .nil, v => .cons v .nil
  | .cons h t, v => .cons h (jsonListAppend t v)

/-- Folding `formData.entries()` into a plain object (lines 348–358):
a repeated key collapses into an array of values. -/
def foldFormEntries (entries : List (String × Json)) : JsonFields :=
  entries.foldl (fun acc kv =>
    match jget acc kv.1 with
    | some existing =>
        match existing with
        | .arr xs => jset acc kv.1 (.arr (jsonListAppend xs kv.2))
        | v => jset acc kv.1 (.arr (.cons v (.cons kv.2 .nil)))
    | none => jset acc kv.1 kv.2) .nil

/-- Outcome of the security chain: proceed to dispatch with the final
security context, or halt with a response; either way with the trace of
handler invocations. -/
inductive ChainOut where
  | proceed (sc : SecCtx) (evs : List Event)
  | halt (r : Resp) (evs : List Event)

/-- The security chain (lines 377–405): iterate the effective requirement
sequence in declaration order.  Per requirement object: take its first
scheme name (`Object.keys(requirement)[0]`), look up the registered handler
(a missing handler — including an empty requirement object — is a 500
`ERR_CONFIG`), invoke it with the context, the required scopes and the
threaded security context; only an exact `true` continues the chain. -/
def securityChain (cfg : RouterCfg) : List Requirement → Ctx → SecCtx → ChainOut
  | [], _, sc => .proceed sc []
  | r :: rest, ctx, sc =>
      match r.head? with
      | none => .halt (createErrorResponse cfg 500 "ERR_CONFIG" "Internal configuration error" []) []
      | some kv =>
          let scheme := kv.1
          let scopes := (objGet r scheme).getD []
          match objGet cfg.securityHandlers scheme with
          | none =>
              .halt (createErrorResponse cfg 500 "ERR_CONFIG" "Internal configuration error" []) []
          | some h =>
              let out := h ctx scopes sc
              let ev := Event.secCall scheme scopes out.1
              match out.1 with
              | .ret .vTrue =>
                  match securityChain cfg rest ctx out.2 with
                  | .proceed scF evs => .proceed scF (ev :: evs)
                  | .halt resp evs => .halt resp (ev :: evs)
              | .ret (.vResponse resp) => .halt resp [ev]
              | .ret _ =>
                  .halt (createErrorResponse cfg 401 "UNAUTHORIZED" "Unauthorized" []) [ev]
              | .thrownResponse resp => .halt resp [ev]
              | .thrown =>
                  .halt (createErrorResponse cfg 403 "FORBIDDEN" "Forbidden" []) [ev]

/-- Dispatch and response validation (lines 407–515).  `strict` is
`this.strictResponseValidation`; it is consulted here and nowhere earlier in
the pipeline (line 446).  An unregistered operation is a 501; a handler throw
is a 500.  In strict mode, for a non-SSE response with documented response
validators: an undocumented status only warns; a `null` validator only warns;
a failing JSON body is converted to a 500 `CONTRACT_VIOLATION` only in
development mode, otherwise the original response is passed through.  CORS
headers are attached to the handler's response on the way out. -/
def stageDispatch (cfg : RouterCfg) (strict : Bool) (e : OpEntry) (ctx : Ctx)
    (sc : SecCtx) (parsedBody : Json) (evs : List Event) : PipeOut :=
  match objGet cfg.operations e.operationId with
  | none =>
      { resp := createErrorResponse cfg 501 "NOT_IMPLEMENTED"
          ("Not implemented: " ++ e.method ++ " " ++ e.bunPath) [],
        events := evs, dispatched := none }
  | some h =>
      let ctx1 := if truthy parsedBody then { ctx with body := parsedBody } else ctx
      match h ctx1 sc with
      | .thrown =>
          { resp := createErrorResponse cfg 500 "HANDLER_ERROR" "Internal handler error" [],
            events := evs ++ [.opCall e.operationId], dispatched := none }
      | .ok r =>
          let ct0 := headerGet r.headers "content-type"
          let isSSE := match ct0 with
            | some ct => strStarts ct "text/event-stream"
            | none => false
          let finalResp :=
            if strict && e.validators.responses.length > 0 && !isSSE then
              match objGet e.validators.responses (toString r.status) with
              | none => withCors cfg.corsHeaders r
              | some vOpt =>
                  let ct2 := (headerGet r.headers "content-type").getD ""
                  let responseData : Json :=
                    if strIncludes ct2 "application/json" then r.jsonBody.getD .null
                    else .null
                  if truthy responseData then
                    match vOpt with
                    | none => withCors cfg.corsHeaders r
                    | some vs =>
                        if !(cfg.ajv.validate vs responseData) && cfg.development then
                          createErrorResponse cfg 500 "CONTRACT_VIOLATION"
                            ("Response Validation Warning: Status " ++ toString r.status ++
                             " for " ++ e.operationId ++
                             " failed validation against OpenAPI schema.")
                            (cfg.ajv.errorsOf vs responseData)
                        else withCors cfg.corsHeaders r
                  else withCors cfg.corsHeaders r
            else withCors cfg.corsHeaders r
          { resp := finalResp, events := evs ++ [.opCall e.operationId], dispatched := some r }

/-- Security enforcement (lines 377–405) feeding dispatch. -/
def stageSecurity (cfg : RouterCfg) (strict : Bool) (e : OpEntry) (ctx : Ctx)
    (parsedBody : Json) : PipeOut :=
  match securityChain cfg e.security ctx .nil with
  | .halt resp evs => { resp := resp, events := evs, dispatched := none }
  | .proceed sc evs => stageDispatch cfg strict e ctx sc parsedBody evs

/-- Body parse and validation (lines 333–374).  JSON and form bodies are
parsed (a rejected parse yields `{}`), any other content type with a body
validator present is a 415; a failing validation is a 400
`INVALID_BODY_VALIDATION`.  Successful validation coerces the parsed body in
place. -/
def stageBody (cfg : RouterCfg) (strict : Bool) (e : OpEntry) (req : Req)
    (ctx : Ctx) : PipeOut :=
  match e.validators.body with
  | none => stageSecurity cfg strict e ctx .null
  | some bs =>
      let contentType := (headerGet req.headers "Content-Type").getD ""
      let parsed : Option Json :=
        if strIncludes contentType "application/json" then
          some (req.jsonBody.getD (.obj .nil))
        else if strIncludes contentType "multipart/form-data" ||
                strIncludes contentType "application/x-www-form-urlencoded" then
          some (match req.formBody with
                | some entries => Json.obj (foldFormEntries entries)
                | none => .obj .nil)
        else none
      match parsed with
      | none =>
          { resp := createErrorResponse cfg 415 "UNSUPPORTED_MEDIA_TYPE"
              "Unsupported Content-Type header." [],
            events := [], dispatched := none }
      | some pb =>
          if cfg.ajv.validate bs pb then
            stageSecurity cfg strict e ctx (cfg.ajv.coerce bs pb)
          else
            { resp := createErrorResponse cfg 400 "INVALID_BODY_VALIDATION"
                "Body validation failed" (cfg.ajv.errorsOf bs pb),
              events := [], dispatched := none }

/-- Path-parameter validation (lines 325–332). -/
def stagePath (cfg : RouterCfg) (strict : Bool) (e : OpEntry) (req : Req)
    (ctx : Ctx) : PipeOut :=
  match e.validators.path with
  | none => stageBody cfg strict e req ctx
  | some ps =>
      if cfg.ajv.validate ps ctx.params then
        stageBody cfg strict e req { ctx with params := cfg.ajv.coerce ps ctx.params }
      else
        { resp := createErrorResponse cfg 400 "ERR_VALIDATION" "Path validation failed"
            (cfg.ajv.errorsOf ps ctx.params),
          events := [], dispatched := none }

/-- Query-parameter validation (lines 318–324). -/
def stageQuery (cfg : RouterCfg) (strict : Bool) (e : OpEntry) (req : Req)
    (ctx : Ctx) : PipeOut :=
  match e.validators.query with
  | none => stagePath cfg strict e req ctx
  | some qs =>
      if cfg.ajv.validate qs ctx.query then
        stagePath cfg strict e req { ctx with query := cfg.ajv.coerce qs ctx.query }
      else
        { resp := createErrorResponse cfg 400 "ERR_VALIDATION" "Query validation failed"
            (cfg.ajv.errorsOf qs ctx.query),
          events := [], dispatched := none }

/-- One full pipeline run of the route closure (lines 266–515) for an
operation entry: assemble the request context (host-supplied path params, or
the positional fallback when empty; query object with last-value-wins;
parsed cookies), then the strictly sequential stages query → path → body →
security → dispatch → response validation → CORS finalization. -/
def runRoute (cfg : RouterCfg) (strict : Bool) (e : OpEntry) (req : Req) : PipeOut :=
  let params : JsonFields :=
    if req.params.length = 0 then extractParams e.openApiPath req.urlPathname
    else req.params.foldl (fun acc kv => jset acc kv.1 (.str kv.2)) .nil
  let queryParams : JsonFields :=
    req.query.foldl (fun acc kv => jset acc kv.1 (.str kv.2)) .nil
  let ctx : Ctx :=
    { headers := req.headers, url := req.url, method := req.method,
      params := .obj params, query := .obj queryParams, body := .null,
      cookies := parseCookies req.headers }
  stageQuery cfg strict e req ctx

/-! ## Projection helpers for stating build-phase results -/

/-- Warnings of a build result (`none` when the build threw). -/
def warningsOf (r : Except JsErr BuildOut) : Option (List Warning) :=
  match r with
  | .ok o => some o.warnings
  | .error _ => none

/-- The route entry registered at `(path, method)` in a build result. -/
def entryAt (r : Except JsErr BuildOut) (p m : String) : Option RouteEntry :=
  match r with
  | .ok o =>
      match objGet o.table p with
      | some (.methods mm) => objGet mm m
      | _ => none
  | .error _ => none

/-- The operationId dispatched at `(path, method)`. -/
def opIdAt (r : Except JsErr BuildOut) (p m : String) : Option String :=
  match entryAt r p m with
  | some (.op ed) => some ed.operationId
  | _ => none

/-- The component schemas of the post-build document. -/
def postComponents (r : Except JsErr BuildOut) : List (String × Json) :=
  match r with
  | .ok o => o.postDoc.componentSchemas.getD []
  | .error _ => []

/-- Calling `routes()` twice: the outer `Except` is the first call, the inner
one the second call, which runs on the mutated document and the grown Ajv
registry left behind by the first call. -/
def rebuild (doc : Contract) (reg : Registry) : Except JsErr (Except JsErr BuildOut) :=
  (buildRoutes doc reg).map (fun out => buildRoutes out.postDoc out.registry)

/-! ## C10 — schema registration throws on `type: array` without `items` -/

def arrayNoItemsSchema : Json := .obj (.cons "type" (.str "array") .nil)

def docC10 : Contract :=
  { componentSchemas := some [("ArrayNoItems", arrayNoItemsSchema)],
    security := none, paths := [] }

/-- C10: a contract whose `components.schemas` contains a top-level schema
node with `type: 'array'` and no `items` field makes `routes()` throw a
`TypeError` during schema registration (the binary-type patch dereferences
`schema.items` unguarded), instead of returning a route table. -/
theorem routes_throws_typeError_on_array_without_items :
    buildRoutes docC10 [] = .error .typeError := rfl

/-! ## C3 — route conflicts: the warning guard is dead and the last-seen
template wins -/

def opUserA : Operation :=
  { operationId := some "getUserA", parameters := [], requestBody := none,
    responses := [], security := none }

def opUserB : Operation :=
  { operationId := some "getUserB", parameters := [], requestBody := none,
    responses := [], security := none }

/-- Two distinct templates that normalize to the same host path
`/users/:id`. -/
def docConflict : Contract :=
  { componentSchemas := none, security := none,
    paths := [("/users/\x7bid\x7d", [("get", some opUserA)]),
              ("/users/:id", [("get", some opUserB)])] }

/-- C3 (evaluation at the failing input): for a contract with the two
conflicting templates `/users/\x7bid\x7d` and `/users/:id`, `routes()` emits no
warning at all — the conflict guard consults the still-empty `routes` object —
and the entry that survives at `/users/:id` is the *last*-seen template's
operation (`getUserB`), not the first-seen one. -/
theorem conflict_emits_no_warning_and_last_template_wins :
    convertPath "/users/\x7bid\x7d" = "/users/:id" ∧
    warningsOf (buildRoutes docConflict []) = some [] ∧
    opIdAt (buildRoutes docConflict []) "/users/:id" "GET" = some "getUserB" :=
  ⟨rfl, rfl, rfl⟩

/-- The pre-build conflict scan can never produce a warning when invoked on
the empty `routes` object — which is how `routes()` invokes it (the `routes`
object is populated only after the scan).  The guard
`routes[bunPath] && …` is therefore dead code for every contract. -/
theorem preBuildScan_on_empty_routes_never_warns
    (paths : List (String × PathItem)) (pm : List (String × String)) :
    preBuildScan [] paths pm = [] := by
  induction paths generalizing pm with
  | nil => rfl
  | cons hd tl ih =>
      cases hd with
      | mk p item => simp [preBuildScan, objGet, ih]

/-! ## C5 — the contract document is mutated in place below the top level -/

def nestedRefSchema : Json :=
  .obj (.cons "type" (.str "object")
       (.cons "properties"
          (.obj (.cons "x" (.obj (.cons "$ref" (.str "#/components/schemas/B") .nil)) .nil))
          .nil))

def docNestedRef : Contract :=
  { componentSchemas := some [("A", nestedRefSchema),
                              ("B", .obj (.cons "type" (.str "string") .nil))],
    security := none, paths := [] }

/-- C5 (counterexample): `routes()` succeeds on `docNestedRef`, but the
original in-memory document does not survive unchanged: the `$ref` nested
inside component schema `A`'s `properties.x` is rewritten in place from
`#/components/schemas/B` to `B`, because line 218 copies only the top level
of the schema (`{ ...schema }`) before the recursive rewrite. -/
theorem routes_mutates_original_document :
    (buildRoutes docNestedRef []).isOk = true ∧
    objGet (postComponents (buildRoutes docNestedRef [])) "A" ≠ some nestedRefSchema ∧
    objGet (postComponents (buildRoutes docNestedRef [])) "A" =
      some (.obj (.cons "type" (.str "object")
        (.cons "properties"
           (.obj (.cons "x" (.obj (.cons "$ref" (.str "B") .nil)) .nil))
           .nil))) :=
  ⟨rfl, by decide, rfl⟩

/-! ## C2 — rebuilding: the second `routes()` call throws when component
schemas exist -/

def docOneSchema : Contract :=
  { componentSchemas := some [("A", .obj (.cons "type" (.str "string") .nil))],
    security := none, paths := [] }

/-- C2 (counterexample): on a contract with one component schema the first
`routes()` call succeeds, but re-invoking `routes()` on the unmodified
contract object throws: the loop at lines 216–221 calls `ajv.addSchema` with
the same key again, and Ajv rejects a duplicate key. -/
theorem second_routes_call_throws_on_duplicate_schema :
    rebuild docOneSchema [] = .ok (.error (.dupSchema "A")) := rfl

/-! ## C8 — built-in error formatter by verbosity mode -/

/-- A development-mode router configuration with no custom error handler and
a trivial validation oracle, used to evaluate the built-in formatter. -/
def devCfg : RouterCfg :=
  { operations := [], securityHandlers := [], development := true,
    corsHeaders := [], errorHandler := none,
    ajv := { validate := fun _ _ => true, errorsOf := fun _ _ => [], coerce := fun _ v => v } }

/-- C8 (counterexample): in development ("verbose") mode, a pipeline error
with an empty details list — e.g. the 401 `UNAUTHORIZED` produced by the
security chain — does *not* surface `code` and `message` unredacted: because
`isVerbose = development && details.length > 0`, the built-in formatter
strips the `code` field and substitutes the fixed 401 message even though
`development` is true. -/
theorem development_mode_strips_code_when_details_empty :
    devCfg.development = true ∧
    (createErrorResponse devCfg 401 "UNAUTHORIZED" "Unauthorized" []).jsonBody =
      some (.obj (.cons "message"
        (.str "Authentication required or token is invalid.") .nil)) :=
  ⟨rfl, rfl⟩

/-- C8 (amended): with no custom formatter and `status ≥ 400`, the built-in
error body is verbose — `{code, message, details}` unredacted — exactly when
`development` is true *and* the details list is non-empty; in every other
case (non-development, or empty details even in development) the body is the
terse one: the `code` field is omitted and the message is replaced by the
fixed status-class string.  The five fixed strings (401, 403, 404, generic
4xx, generic 5xx) are pairwise distinct. -/
theorem error_body_by_verbosity (cfg : RouterCfg) (status : Nat) (code msg : String)
    (details : List Json) (heh : cfg.errorHandler = none) (hst : 400 ≤ status) :
    (createErrorResponse cfg status code msg details).jsonBody =
      some (.obj (if cfg.development && details.length > 0 then
          .cons "code" (.str code) (.cons "message" (.str msg)
            (.cons "details" (.arr (jsonListOf details)) .nil))
        else .cons "message" (.str (terseMessage status)) .nil)) ∧
    [terseMessage 401, terseMessage 403, terseMessage 404, terseMessage 400,
     terseMessage 500].Nodup := by
  refine ⟨?_, by decide⟩
  by_cases hd : cfg.development
  · cases details with
    | nil => simp [createErrorResponse, heh, hd, hst]
    | cons d ds => simp [createErrorResponse, heh, hd, hst]
  · simp [createErrorResponse, heh, hd, hst]

/-- Witness for `error_body_by_verbosity` at concrete inputs: a
development-mode 401 with one detail is verbose; the theorem applied at
`devCfg`, status 401, a singleton detail list. -/
theorem error_body_by_verbosity_witness :
    (createErrorResponse devCfg 401 "UNAUTHORIZED" "Unauthorized" [Json.null]).jsonBody =
      some (.obj (if devCfg.development && [Json.null].length > 0 then
          .cons "code" (.str "UNAUTHORIZED") (.cons "message" (.str "Unauthorized")
            (.cons "details" (.arr (jsonListOf [Json.null])) .nil))
        else .cons "message" (.str (terseMessage 401)) .nil)) ∧
    [terseMessage 401, terseMessage 403, terseMessage 404, terseMessage 400,
     terseMessage 500].Nodup :=
  error_body_by_verbosity devCfg 401 "UNAUTHORIZED" "Unauthorized" [Json.null] rfl
    (by decide)

/-! ## C1 — security-chain order and conjunction semantics -/

/-- The scheme a requirement object selects: `Object.keys(requirement)[0]`. -/
def firstScheme (r : Requirement) : Option String := r.head?.map Prod.fst

def eventScheme : Event → Option String
  | .secCall s _ _ => some s
  | .opCall _ => none

/-- C1: for the effective requirement sequence of an operation, the security
chain is conjunctive and ordered.  (a) If the chain proceeds to handler
dispatch, then its invocation trace covers *every* requirement object, in
declaration order (so for `[A, B]`, A is invoked and resolved before B), and
every invoked handler resolved to exactly `true` — there is no short-circuit
success.  (b) In every case (including halts) the invocation trace is a
declaration-order prefix of the requirement sequence. -/
theorem security_chain_orders_and_requires_all (cfg : RouterCfg)
    (reqs : List Requirement) (ctx : Ctx) (sc : SecCtx) :
    (∀ scF evs, securityChain cfg reqs ctx sc = .proceed scF evs →
        evs.map eventScheme = reqs.map firstScheme ∧
        ∀ ev ∈ evs, ∃ s scps, ev = Event.secCall s scps (.ret .vTrue)) ∧
    (∀ resp evs, securityChain cfg reqs ctx sc = .halt resp evs →
        ∃ k, evs.map eventScheme = (reqs.take k).map firstScheme) := by
  induction reqs generalizing sc with
  | nil =>
      refine ⟨?_, ?_⟩
      · intro scF evs h
        simp only [securityChain, ChainOut.proceed.injEq] at h
        simp [← h.2]
      · intro resp evs h
        simp [securityChain] at h
  | cons r rest ih =>
      refine ⟨?_, ?_⟩
      · intro scF evs h
        simp only [securityChain] at h
        cases hh : r.head? with
        | none => rw [hh] at h; simp at h
        | some kv =>
            rw [hh] at h; dsimp only at h
            cases hl : objGet cfg.securityHandlers kv.1 with
            | none => rw [hl] at h; simp at h
            | some hd =>
                rw [hl] at h; dsimp only at h
                cases hres : (hd ctx ((objGet r kv.1).getD []) sc).1 with
                | ret v =>
                    cases v with
                    | vTrue =>
                        rw [hres] at h; dsimp only at h
                        cases hc : securityChain cfg rest ctx
                            (hd ctx ((objGet r kv.1).getD []) sc).2 with
                        | proceed scF2 evs2 =>
                            rw [hc] at h
                            simp only [ChainOut.proceed.injEq] at h
                            obtain ⟨h1, h2⟩ := h
                            obtain ⟨ihm, ihall⟩ := (ih _).1 scF2 evs2 hc
                            subst h2
                            constructor
                            · simp [eventScheme, ihm, firstScheme, hh]
                            · intro ev hev
                              rcases List.mem_cons.mp hev with h3 | h3
                              · exact ⟨kv.1, (objGet r kv.1).getD [], by rw [h3]⟩
                              · exact ihall ev h3
                        | halt r2 evs2 => rw [hc] at h; simp at h
                    | vFalse => rw [hres] at h; simp at h
                    | vResponse r2 => rw [hres] at h; simp at h
                    | vOther v2 => rw [hres] at h; simp at h
                | thrown => rw [hres] at h; simp at h
                | thrownResponse r2 => rw [hres] at h; simp at h
      · intro resp evs h
        simp only [securityChain] at h
        cases hh : r.head? with
        | none => rw [hh] at h; simp at h; exact ⟨0, by simp [h.2]⟩
        | some kv =>
            rw [hh] at h; dsimp only at h
            cases hl : objGet cfg.securityHandlers kv.1 with
            | none => rw [hl] at h; simp at h; exact ⟨0, by simp [h.2]⟩
            | some hd =>
                rw [hl] at h; dsimp only at h
                cases hres : (hd ctx ((objGet r kv.1).getD []) sc).1 with
                | ret v =>
                    cases v with
                    | vTrue =>
                        rw [hres] at h; dsimp only at h
                        cases hc : securityChain cfg rest ctx
                            (hd ctx ((objGet r kv.1).getD []) sc).2 with
                        | proceed scF2 evs2 => rw [hc] at h; simp at h
                        | halt r2 evs2 =>
                            rw [hc] at h
                            simp only [ChainOut.halt.injEq] at h
                            obtain ⟨k, ihm⟩ := (ih _).2 r2 evs2 hc
                            refine ⟨k + 1, ?_⟩
                            rw [← h.2]
                            simp [eventScheme, ihm, firstScheme, hh]
                    | vFalse =>
                        rw [hres] at h; simp at h
                        exact ⟨1, by simp [← h.2, eventScheme, firstScheme, hh]⟩
                    | vResponse r2 =>
                        rw [hres] at h; simp at h
                        exact ⟨1, by simp [← h.2, eventScheme, firstScheme, hh]⟩
                    | vOther v2 =>
                        rw [hres] at h; simp at h
                        exact ⟨1, by simp [← h.2, eventScheme, firstScheme, hh]⟩
                | thrown =>
                    rw [hres] at h; simp at h
                    exact ⟨1, by simp [← h.2, eventScheme, firstScheme, hh]⟩
                | thrownResponse r2 =>
                    rw [hres] at h; simp at h
                    exact ⟨1, by simp [← h.2, eventScheme, firstScheme, hh]⟩

/-- A security handler that authorizes (returns exactly `true`). -/
def trueHandler : SecHandler := fun _ _ sc => (.ret .vTrue, sc)

def cfgTwoSchemes : RouterCfg :=
  { operations := [], securityHandlers := [("A", trueHandler), ("B", trueHandler)],
    development := true, corsHeaders := [], errorHandler := none,
    ajv := { validate := fun _ _ => true, errorsOf := fun _ _ => [], coerce := fun _ v => v } }

def emptyCtx : Ctx :=
  { headers := [], url := "http://localhost/", method := "GET", params := .obj .nil,
    query := .obj .nil, body := .null, cookies := [] }

def reqsAB : List Requirement := [[("A", [])], [("B", [])]]

/-- Witness for `security_chain_orders_and_requires_all`: with requirements
`[A, B]` and both handlers returning `true`, the chain proceeds and the trace
is `[A, B]` in declaration order, every invocation resolving `true`. -/
theorem security_chain_orders_witness :
    List.map eventScheme
        [Event.secCall "A" [] (.ret .vTrue), Event.secCall "B" [] (.ret .vTrue)] =
      List.map firstScheme reqsAB ∧
    ∀ ev ∈ [Event.secCall "A" [] (SecResult.ret .vTrue),
            Event.secCall "B" [] (SecResult.ret .vTrue)],
      ∃ s scps, ev = Event.secCall s scps (.ret .vTrue) :=
  (security_chain_orders_and_requires_all cfgTwoSchemes reqsAB emptyCtx .nil).1 .nil
    [Event.secCall "A" [] (.ret .vTrue), Event.secCall "B" [] (.ret .vTrue)] rfl

/-! ## C9 — a non-`true`, non-`Response` handler return value is a 401 -/

/-- C9: for a secured operation, a security handler whose settled return
value is neither exactly the boolean `true` nor a `Response` — including
truthy values such as a user object or the string `'true'` — halts the chain
with the 401 `UNAUTHORIZED` error response; the chain never proceeds on such
a value. -/
theorem nonTrue_nonResponse_return_yields_401 (cfg : RouterCfg) (ctx : Ctx)
    (sc sc' : SecCtx) (r : Requirement) (rest : List Requirement)
    (scheme : String) (scps : List String) (h : SecHandler) (v : SecRet)
    (hhead : r.head? = some (scheme, scps))
    (hlook : objGet cfg.securityHandlers scheme = some h)
    (hret : h ctx ((objGet r scheme).getD []) sc = (.ret v, sc'))
    (hv1 : v ≠ .vTrue) (hv2 : ∀ resp, v ≠ .vResponse resp) :
    securityChain cfg (r :: rest) ctx sc =
      .halt (createErrorResponse cfg 401 "UNAUTHORIZED" "Unauthorized" [])
        [.secCall scheme ((objGet r scheme).getD []) (.ret v)] := by
  cases v with
  | vTrue => exact absurd rfl hv1
  | vFalse => simp [securityChain, hhead, hlook, hret]
  | vResponse resp => exact absurd rfl (hv2 resp)
  | vOther w => simp [securityChain, hhead, hlook, hret]

/-- A security handler returning the (truthy, non-boolean) string `'true'`
after stashing the user in the security context. -/
def stringTrueHandler : SecHandler :=
  fun _ _ sc => (.ret (.vOther (.str "true")), jset sc "user" (.str "alice"))

def cfgStringTrue : RouterCfg :=
  { operations := [], securityHandlers := [("auth", stringTrueHandler)],
    development := true, corsHeaders := [], errorHandler := none,
    ajv := { validate := fun _ _ => true, errorsOf := fun _ _ => [], coerce := fun _ v => v } }

/-- Witness for `nonTrue_nonResponse_return_yields_401`: a handler returning
the string `'true'` — truthy, but not the boolean `true` — yields the 401
`UNAUTHORIZED` halt. -/
theorem nonTrue_nonResponse_return_yields_401_witness :
    securityChain cfgStringTrue [[("auth", [])]] emptyCtx .nil =
      .halt (createErrorResponse cfgStringTrue 401 "UNAUTHORIZED" "Unauthorized" [])
        [.secCall "auth" [] (.ret (.vOther (.str "true")))] :=
  nonTrue_nonResponse_return_yields_401 cfgStringTrue emptyCtx .nil
    (jset .nil "user" (.str "alice")) [("auth", [])] [] "auth" [] stringTrueHandler
    (.vOther (.str "true")) rfl rfl rfl (by simp) (fun resp => by simp)

/-! ## C6 — query validation failure returns 400 before any security handler -/

/-- The query object the closure builds from `url.searchParams`
(`Object.fromEntries`: a repeated key keeps the last value). -/
def reqQueryObj (req : Req) : Json :=
  .obj (req.query.foldl (fun acc kv => jset acc kv.1 (.str kv.2)) .nil)

/-- C6: when an operation has a compiled query validator and the request's
query parameters fail it, the pipeline exits with the 400 `ERR_VALIDATION`
error response and the invocation trace is empty — no security handler (and
no business handler) runs; in particular, with no custom error formatter the
response status is 400. -/
theorem query_validation_failure_precedes_security (cfg : RouterCfg) (strict : Bool)
    (e : OpEntry) (req : Req) (qs : Json)
    (hq : e.validators.query = some qs)
    (hv : cfg.ajv.validate qs (reqQueryObj req) = false) :
    runRoute cfg strict e req =
      { resp := createErrorResponse cfg 400 "ERR_VALIDATION" "Query validation failed"
          (cfg.ajv.errorsOf qs (reqQueryObj req)),
        events := [], dispatched := none } ∧
    (cfg.errorHandler = none → (runRoute cfg strict e req).resp.status = 400) := by
  simp only [reqQueryObj] at hv
  have hmain : runRoute cfg strict e req =
      { resp := createErrorResponse cfg 400 "ERR_VALIDATION" "Query validation failed"
          (cfg.ajv.errorsOf qs (reqQueryObj req)),
        events := [], dispatched := none } := by
    simp [runRoute, stageQuery, hq, hv, reqQueryObj]
  refine ⟨hmain, fun heh => ?_⟩
  rw [hmain]
  simp [createErrorResponse, heh]

def cfgNoHandlers : RouterCfg :=
  { operations := [], securityHandlers := [("A", trueHandler)],
    development := true, corsHeaders := [], errorHandler := none,
    ajv := { validate := fun _ _ => false, errorsOf := fun _ _ => [], coerce := fun _ v => v } }

def qSchema : Json := convertParamsToSchema
  [{ name := "limit", loc := "query", required := true, schema := some (.obj .nil) }]

def entryWithQuery : OpEntry :=
  { openApiPath := "/items", bunPath := "/items", method := "GET",
    operationId := "listItems",
    validators := { query := some qSchema, path := none, body := none, responses := [] },
    security := [[("A", [])]] }

def reqNoQuery : Req :=
  { params := [], urlPathname := "/items", query := [], headers := [],
    jsonBody := none, formBody := none, method := "GET", url := "http://localhost/items" }

/-- Witness for `query_validation_failure_precedes_security`: a secured
operation with a required query parameter, a request without it, and an
oracle that rejects — the run is the 400 with an empty trace. -/
theorem query_validation_failure_precedes_security_witness :
    runRoute cfgNoHandlers false entryWithQuery reqNoQuery =
      { resp := createErrorResponse cfgNoHandlers 400 "ERR_VALIDATION"
          "Query validation failed"
          (cfgNoHandlers.ajv.errorsOf qSchema (reqQueryObj reqNoQuery)),
        events := [], dispatched := none } ∧
    (cfgNoHandlers.errorHandler = none →
      (runRoute cfgNoHandlers false entryWithQuery reqNoQuery).resp.status = 400) :=
  query_validation_failure_precedes_security cfgNoHandlers false entryWithQuery
    reqNoQuery qSchema rfl rfl

/-! ## C7 — the `strict` flag only affects the response-validation stage -/

/-- Two pipeline outcomes that agree on everything the pre-response-validation
stages determine: the invocation trace, the dispatched handler response, and
— when the run never reached dispatch-with-return — the final response. -/
def strictAgnostic (o1 o2 : PipeOut) : Prop :=
  o1.events = o2.events ∧ o1.dispatched = o2.dispatched ∧
  (o1.dispatched = none → o1.resp = o2.resp)

theorem strictAgnostic_rfl (o : PipeOut) : strictAgnostic o o := ⟨rfl, rfl, fun _ => rfl⟩

theorem stageDispatch_strict_agnostic (cfg : RouterCfg) (b1 b2 : Bool) (e : OpEntry)
    (ctx : Ctx) (sc : SecCtx) (pb : Json) (evs : List Event) :
    strictAgnostic (stageDispatch cfg b1 e ctx sc pb evs)
      (stageDispatch cfg b2 e ctx sc pb evs) := by
  unfold stageDispatch
  cases hop : objGet cfg.operations e.operationId with
  | none => exact strictAgnostic_rfl _
  | some h =>
      dsimp only
      cases hout : h (if truthy pb then { ctx with body := pb } else ctx) sc with
      | thrown => exact strictAgnostic_rfl _
      | ok r => exact ⟨rfl, rfl, fun hn => by simp at hn⟩

theorem stageSecurity_strict_agnostic (cfg : RouterCfg) (b1 b2 : Bool) (e : OpEntry)
    (ctx : Ctx) (pb : Json) :
    strictAgnostic (stageSecurity cfg b1 e ctx pb) (stageSecurity cfg b2 e ctx pb) := by
  unfold stageSecurity
  cases hc : securityChain cfg e.security ctx .nil with
  | halt resp evs => exact strictAgnostic_rfl _
  | proceed sc evs => exact stageDispatch_strict_agnostic cfg b1 b2 e ctx sc pb evs

theorem stageBody_strict_agnostic (cfg : RouterCfg) (b1 b2 : Bool) (e : OpEntry)
    (req : Req) (ctx : Ctx) :
    strictAgnostic (stageBody cfg b1 e req ctx) (stageBody cfg b2 e req ctx) := by
  unfold stageBody
  cases hb : e.validators.body with
  | none => exact stageSecurity_strict_agnostic cfg b1 b2 e ctx .null
  | some bs =>
      by_cases h1 : strIncludes ((headerGet req.headers "Content-Type").getD "")
          "application/json"
      · simp only [h1, if_true]
        by_cases h2 : cfg.ajv.validate bs (req.jsonBody.getD (.obj .nil))
        · simp only [h2, if_true]
          exact stageSecurity_strict_agnostic cfg b1 b2 e ctx _
        · simp only [h2, if_false]
          exact strictAgnostic_rfl _
      · by_cases h3 : strIncludes ((headerGet req.headers "Content-Type").getD "")
            "multipart/form-data" ||
            strIncludes ((headerGet req.headers "Content-Type").getD "")
              "application/x-www-form-urlencoded"
        · simp only [h1, h3, if_false, if_true]
          split
          · exact strictAgnostic_rfl _
          · split
            · exact stageSecurity_strict_agnostic cfg b1 b2 e ctx _
            · exact strictAgnostic_rfl _
        · simp only [h1, h3, if_false]
          exact strictAgnostic_rfl _

theorem stagePath_strict_agnostic (cfg : RouterCfg) (b1 b2 : Bool) (e : OpEntry)
    (req : Req) (ctx : Ctx) :
    strictAgnostic (stagePath cfg b1 e req ctx) (stagePath cfg b2 e req ctx) := by
  unfold stagePath
  cases hp : e.validators.path with
  | none => exact stageBody_strict_agnostic cfg b1 b2 e req ctx
  | some ps =>
      by_cases h1 : cfg.ajv.validate ps ctx.params
      · simp only [h1, if_true]
        exact stageBody_strict_agnostic cfg b1 b2 e req _
      · simp only [h1, if_false]
        exact strictAgnostic_rfl _

theorem stageQuery_strict_agnostic (cfg : RouterCfg) (b1 b2 : Bool) (e : OpEntry)
    (req : Req) (ctx : Ctx) :
    strictAgnostic (stageQuery cfg b1 e req ctx) (stageQuery cfg b2 e req ctx) := by
  unfold stageQuery
  cases hq : e.validators.query with
  | none => exact stagePath_strict_agnostic cfg b1 b2 e req ctx
  | some qs =>
      by_cases h1 : cfg.ajv.validate qs ctx.query
      · simp only [h1, if_true]
        exact stagePath_strict_agnostic cfg b1 b2 e req _
      · simp only [h1, if_false]
        exact strictAgnostic_rfl _

/-- C7: two runs of the pipeline on the same request that differ only in the
`strict` flag produce the same handler-invocation trace (so query, path and
body validation, security enforcement and handler dispatch all take the same
branches), the same dispatched handler response, and — whenever the run never
reached a returning handler — the very same final response.  Only the
response-validation stage, which acts after dispatch, can make the final
responses differ. -/
theorem strict_flag_noninterference (cfg : RouterCfg) (e : OpEntry) (req : Req)
    (b1 b2 : Bool) :
    (runRoute cfg b1 e req).events = (runRoute cfg b2 e req).events ∧
    (runRoute cfg b1 e req).dispatched = (runRoute cfg b2 e req).dispatched ∧
    ((runRoute cfg b1 e req).dispatched = none →
      (runRoute cfg b1 e req).resp = (runRoute cfg b2 e req).resp) := by
  unfold runRoute
  exact stageQuery_strict_agnostic cfg b1 b2 e req _

def entryPlain : OpEntry :=
  { openApiPath := "/hello", bunPath := "/hello", method := "GET",
    operationId := "getHello",
    validators := { query := none, path := none, body := none, responses := [] },
    security := [] }

def reqPlain : Req :=
  { params := [], urlPathname := "/hello", query := [], headers := [],
    jsonBody := none, formBody := none, method := "GET",
    url := "http://localhost/hello" }

/-- Witness for `strict_flag_noninterference` at a concrete unimplemented
route (dispatch never returns a handler response, so the final 501 responses
coincide across strict modes). -/
theorem strict_flag_noninterference_witness :
    (runRoute devCfg true entryPlain reqPlain).events =
      (runRoute devCfg false entryPlain reqPlain).events ∧
    (runRoute devCfg true entryPlain reqPlain).resp =
      (runRoute devCfg false entryPlain reqPlain).resp :=
  ⟨(strict_flag_noninterference devCfg entryPlain reqPlain true false).1,
   (strict_flag_noninterference devCfg entryPlain reqPlain true false).2.2 rfl⟩

theorem exceptOkBind {e a b : Type} (x : a) (f : a → Except e b) :
    (Except.ok x : Except e a) >>= f = f x := rfl

theorem exceptErrBind {e a b : Type} (err : e) (f : a → Except e b) :
    (Except.error err : Except e a) >>= f = Except.error err := rfl

/-- Atomic JSON values: everything that is not an object and not an array.
In-place mutation cannot reach inside an atom. -/
def atomicJson : Json → Bool
  | .arr _ => false
  | .obj _ => false
  | _ => true

def allAtomic : JsonFields → Bool
  | .nil => true
  | .cons _ v rest => atomicJson v && allAtomic rest

theorem rewriteRefs_atomic (j : Json) (h : atomicJson j = true) :
    rewriteRefs j = .ok j := by
  cases j with
  | arr xs => simp [atomicJson] at h
  | obj fs => simp [atomicJson] at h
  | null => rfl
  | bool b => rfl
  | num n => rfl
  | str s => rfl

theorem origPostFields_atomic : ∀ fs : JsonFields, allAtomic fs = true →
    origPostFields fs = .ok fs
  | .nil, _ => rfl
  | .cons k v rest, h => by
      rw [allAtomic, Bool.and_eq_true] at h
      simp only [origPostFields, rewriteRefs_atomic v h.1,
        origPostFields_atomic rest h.2]
      rfl
termination_by structural fs => fs

theorem patchChildren_atomic (j : Json) (h : atomicJson j = true) :
    patchChildren j = .ok j := by
  cases j with
  | arr xs => simp [atomicJson] at h
  | obj fs => simp [atomicJson] at h
  | null => rfl
  | bool b => rfl
  | num n => rfl
  | str s => rfl

theorem patchOwnProps_atomic : ∀ fs : JsonFields, allAtomic fs = true →
    patchOwnProps fs = .ok fs
  | .nil, _ => rfl
  | .cons k v rest, h => by
      rw [allAtomic, Bool.and_eq_true] at h
      by_cases hk : k = "properties"
      · simp only [patchOwnProps, hk, if_true, patchChildren_atomic v h.1,
          patchOwnProps_atomic rest h.2]
        rfl
      · simp only [patchOwnProps, hk, if_false, patchOwnProps_atomic rest h.2]
        rfl
termination_by structural fs => fs

/-- C5 (amended): `routes()` copies only the top level of each component
schema, so a *flat* component schema — one whose property values are all
atoms — survives registration unchanged in the original document (the
top-level `$ref` rewrite and the top-level binary-`type` patch land on the
copy alone); whenever the registration pass over such a schema completes,
the original is unchanged.  (Below the top level — nested `$ref` strings,
`properties` children — the document *is* mutated in place, per the
counterexample, and inline multipart request-body schemas are patched with
no copy at all.) -/
theorem flat_component_schema_survives_registration (fs : JsonFields)
    (h : allAtomic fs = true) (t : Json)
    (ht : origPostSchema (.obj fs) = .ok t) : t = .obj fs := by
  simp only [origPostSchema] at ht
  rw [origPostFields_atomic fs h, exceptOkBind] at ht
  cases hp : patchTypeVal fs with
  | error e =>
      rw [hp, exceptErrBind] at ht
      exact absurd ht (by simp)
  | ok o =>
      rw [hp, exceptOkBind, patchOwnProps_atomic fs h, exceptOkBind] at ht
      exact (Except.ok.inj ht).symm

/-- A flat schema with a top-level binary `type` (the patch would fire on the
copy) and a top-level `$ref` (the rewrite would fire on the copy). -/
def flatSchema : JsonFields :=
  .cons "$ref" (.str "#/components/schemas/B")
    (.cons "type" (.str "string") (.cons "format" (.str "binary") .nil))

/-- Witness for `flat_component_schema_survives_registration`: the concrete
flat schema above registers successfully and the original is unchanged. -/
theorem flat_component_schema_survives_registration_witness :
    allAtomic flatSchema = true ∧ Json.obj flatSchema = Json.obj flatSchema :=
  ⟨by decide, flat_component_schema_survives_registration flatSchema (by decide)
      (.obj flatSchema) rfl⟩

/-! ## C4 — route-table shape -/

def opOptions : Operation :=
  { operationId := some "optA", parameters := [], requestBody := none,
    responses := [], security := none }

def docOptionsOp : Contract :=
  { componentSchemas := none, security := none,
    paths := [("/a", [("options", some opOptions)])] }

/-- C4 (counterexample): a contract documenting an `options` operation *with*
an operationId gets no route entry for it — the synthetic preflight entry,
assigned unconditionally after the method loop (line 519), overwrites the
documented `OPTIONS` entry.  The resulting table has only the preflight entry
and the catch-all, so the claimed "exactly one route entry per documented
(path, method) pair whose operation has an operationId" fails. -/
theorem documented_options_operation_loses_its_entry :
    buildRoutes docOptionsOp [] = .ok
      { table := [("/a", .methods [("OPTIONS", .preflight)]), ("/*", .catchAll)],
        registry := [],
        postDoc := { componentSchemas := none, security := none,
                     paths := [("/a", [("options", some opOptions)])] },
        warnings := [] } := rfl

theorem objGet_objSet_self {α : Type} (l : List (String × α)) (k : String) (v : α) :
    objGet (objSet l k v) k = some v := by
  induction l with
  | nil => simp [objSet, objGet]
  | cons kv rest ih =>
      obtain ⟨k0, w⟩ := kv
      by_cases h : k0 = k
      · simp [objSet, h, objGet]
      · simp [objSet, h, objGet, ih]

theorem objGet_objSet_other {α : Type} (l : List (String × α)) (k : String) (v : α)
    (q : String) (h : q ≠ k) : objGet (objSet l k v) q = objGet l q := by
  have h2 : k ≠ q := Ne.symm h
  induction l with
  | nil => simp [objSet, objGet, h2]
  | cons kv rest ih =>
      obtain ⟨k0, w⟩ := kv
      by_cases h0 : k0 = k
      · subst h0
        simp [objSet, objGet, h2]
      · by_cases h1 : k0 = q
        · simp [objSet, h0, objGet, h1, h]
        · simp [objSet, h0, objGet, h1, ih]

theorem objGet_map_val {α β : Type} (f : α → β) (l : List (String × α)) (q : String) :
    objGet (l.map fun kv => (kv.1, f kv.2)) q = (objGet l q).map f := by
  induction l with
  | nil => simp [objGet]
  | cons kv rest ih =>
      by_cases h : kv.1 = q
      · simp [objGet, h]
      · simp [objGet, h, ih]

/-- The eight lowercase method names have pairwise distinct uppercases. -/
theorem strUpper_injOn_httpMethods : ∀ a ∈ httpMethods, ∀ b ∈ httpMethods,
    strUpper a = strUpper b → a = b := by decide

theorem strUpper_ne_OPTIONS : ∀ a ∈ httpMethods, a ≠ "options" →
    strUpper a ≠ "OPTIONS" := by decide

theorem bind_ok_inv {e a b : Type} {x : Except e a} {f : a → Except e b} {r : b}
    (h : x >>= f = .ok r) : ∃ v, x = .ok v ∧ f v = .ok r := by
  cases x with
  | error err => rw [exceptErrBind] at h; exact absurd h (by simp)
  | ok v => exact ⟨v, rfl, by rw [exceptOkBind] at h; exact h⟩

/-- Method-map entries not targeted by any valid operation of the item are
untouched by the method loop. -/
theorem buildMethods_preserve (reg : Registry) (gs : List Requirement) (p bp : String) :
    ∀ (item : PathItem) (m0 m1 : MethodMap) (post : PathItem) (w : List Warning),
      buildMethods reg gs p bp item m0 = .ok (m1, post, w) →
      ∀ M : String,
        (∀ meth op, (meth, some op) ∈ item → meth ∈ httpMethods →
          idTruthy op.operationId = true → strUpper meth ≠ M) →
        objGet m1 M = objGet m0 M := by
  intro item
  induction item with
  | nil =>
      intro m0 m1 post w h M hno
      simp only [buildMethods, Except.ok.injEq, Prod.mk.injEq] at h
      rw [← h.1]
  | cons kv rest ih =>
      intro m0 m1 post w h M hno
      obtain ⟨meth0, oop0⟩ := kv
      simp only [buildMethods] at h
      by_cases hm : meth0 ∈ httpMethods
      · rw [if_pos hm] at h
        cases oop0 with
        | none =>
            obtain ⟨trip, hrec, h⟩ := bind_ok_inv h
            obtain ⟨mF, postRest, wr⟩ := trip
            dsimp only at h
            simp only [Except.ok.injEq, Prod.mk.injEq] at h
            rw [← h.1]
            exact ih m0 mF postRest wr hrec M
              (fun meth op hmem => hno meth op (List.mem_cons_of_mem _ hmem))
        | some op =>
            by_cases hid : idTruthy op.operationId = true
            · simp only [hid, if_true] at h
              obtain ⟨trip0, hcv, h⟩ := bind_ok_inv h
              obtain ⟨v, opPost, w0⟩ := trip0
              dsimp only at h
              obtain ⟨trip, hrec, h⟩ := bind_ok_inv h
              obtain ⟨mF, postRest, wr⟩ := trip
              dsimp only at h
              simp only [Except.ok.injEq, Prod.mk.injEq] at h
              rw [← h.1]
              rw [ih _ mF postRest wr hrec M
                (fun meth op hmem => hno meth op (List.mem_cons_of_mem _ hmem))]
              exact objGet_objSet_other m0 (strUpper meth0) _ M
                (Ne.symm (hno meth0 op (List.mem_cons_self _ _) hm hid))
            · simp only [hid, if_false] at h
              obtain ⟨trip, hrec, h⟩ := bind_ok_inv h
              obtain ⟨mF, postRest, wr⟩ := trip
              dsimp only at h
              simp only [Except.ok.injEq, Prod.mk.injEq] at h
              rw [← h.1]
              exact ih m0 mF postRest wr hrec M
                (fun meth op hmem => hno meth op (List.mem_cons_of_mem _ hmem))
      · rw [if_neg hm] at h
        obtain ⟨trip, hrec, h⟩ := bind_ok_inv h
        obtain ⟨mF, postRest, wr⟩ := trip
        dsimp only at h
        simp only [Except.ok.injEq, Prod.mk.injEq] at h
        rw [← h.1]
        exact ih m0 mF postRest wr hrec M
          (fun meth op hmem => hno meth op (List.mem_cons_of_mem _ hmem))

/-- Every valid documented (method, operation) pair of an item ends up with
an operation entry at its uppercased method key, carrying the operationId and
path of that operation. -/
theorem buildMethods_found (reg : Registry) (gs : List Requirement) (p bp : String) :
    ∀ (item : PathItem) (m0 m1 : MethodMap) (post : PathItem) (w : List Warning),
      buildMethods reg gs p bp item m0 = .ok (m1, post, w) →
      (item.map Prod.fst).Nodup →
      ∀ meth op, (meth, some op) ∈ item → meth ∈ httpMethods →
        idTruthy op.operationId = true →
        ∃ ed : OpEntry, objGet m1 (strUpper meth) = some (.op ed) ∧
          ed.operationId = op.operationId.getD "" ∧ ed.openApiPath = p ∧
          ed.bunPath = bp ∧ ed.method = strUpper meth := by
  intro item
  induction item with
  | nil =>
      intro m0 m1 post w h hnd meth op hmem
      simp at hmem
  | cons kv rest ih =>
      intro m0 m1 post w h hnd meth op hmem hhm hid
      obtain ⟨meth0, oop0⟩ := kv
      simp only [List.map_cons, List.nodup_cons] at hnd
      rcases List.mem_cons.mp hmem with heq | hmem2
      · rw [Prod.mk.injEq] at heq
        obtain ⟨e1, e2⟩ := heq
        subst e1
        subst e2
        simp only [buildMethods] at h
        rw [if_pos hhm] at h
        simp only [hid, if_true] at h
        obtain ⟨trip0, hcv, h⟩ := bind_ok_inv h
        obtain ⟨v, opPost, w0⟩ := trip0
        dsimp only at h
        obtain ⟨trip, hrec, h⟩ := bind_ok_inv h
        obtain ⟨mF, postRest, wr⟩ := trip
        dsimp only at h
        simp only [Except.ok.injEq, Prod.mk.injEq] at h
        rw [← h.1]
        have hpres := buildMethods_preserve reg gs p bp rest _ mF postRest wr hrec
          (strUpper meth)
          (fun meth2 op2 hmem2 hm2 hid2 hup => by
            have : meth2 = meth :=
              strUpper_injOn_httpMethods meth2 hm2 meth hhm hup
            subst this
            exact hnd.1 (List.mem_map_of_mem Prod.fst hmem2))
        rw [hpres, objGet_objSet_self]
        exact ⟨_, rfl, rfl, rfl, rfl, rfl⟩
      · have step : ∀ (m0' : MethodMap), ∀ mF postRest wr,
            buildMethods reg gs p bp rest m0' = .ok (mF, postRest, wr) → mF = m1 →
            ∃ ed : OpEntry, objGet m1 (strUpper meth) = some (.op ed) ∧
              ed.operationId = op.operationId.getD "" ∧ ed.openApiPath = p ∧
              ed.bunPath = bp ∧ ed.method = strUpper meth := by
          intro m0' mF postRest wr hrec hF
          rw [← hF]
          exact ih m0' mF postRest wr hrec hnd.2 meth op hmem2 hhm hid
        simp only [buildMethods] at h
        by_cases hm : meth0 ∈ httpMethods
        · rw [if_pos hm] at h
          cases oop0 with
          | none =>
              obtain ⟨trip, hrec, h⟩ := bind_ok_inv h
              obtain ⟨mF, postRest, wr⟩ := trip
              dsimp only at h
              simp only [Except.ok.injEq, Prod.mk.injEq] at h
              exact step _ mF postRest wr hrec h.1
          | some op0 =>
              by_cases hid0 : idTruthy op0.operationId = true
              · simp only [hid0, if_true] at h
                obtain ⟨trip0, hcv, h⟩ := bind_ok_inv h
                obtain ⟨v, opPost, w0⟩ := trip0
                dsimp only at h
                obtain ⟨trip, hrec, h⟩ := bind_ok_inv h
                obtain ⟨mF, postRest, wr⟩ := trip
                dsimp only at h
                simp only [Except.ok.injEq, Prod.mk.injEq] at h
                exact step _ mF postRest wr hrec h.1
              · simp only [hid0, if_false] at h
                obtain ⟨trip, hrec, h⟩ := bind_ok_inv h
                obtain ⟨mF, postRest, wr⟩ := trip
                dsimp only at h
                simp only [Except.ok.injEq, Prod.mk.injEq] at h
                exact step _ mF postRest wr hrec h.1
        · rw [if_neg hm] at h
          obtain ⟨trip, hrec, h⟩ := bind_ok_inv h
          obtain ⟨mF, postRest, wr⟩ := trip
          dsimp only at h
          simp only [Except.ok.injEq, Prod.mk.injEq] at h
          exact step _ mF postRest wr hrec h.1

/-- Behaviour of the outer path loop on a conflict-free contract: paths not
registered are untouched, and each registered path's method map contains
exactly the valid operations plus the synthetic preflight entry. -/
theorem buildPaths_spec (reg : Registry) (gs : List Requirement) :
    ∀ (paths : List (String × PathItem)) (acc accF : List (String × MethodMap))
      (post : List (String × PathItem)) (w : List Warning),
      buildPaths reg gs paths acc = .ok (accF, post, w) →
      (∀ q, (∀ p ∈ paths.map Prod.fst, convertPath p ≠ q) →
        objGet accF q = objGet acc q) ∧
      ((paths.map Prod.fst).Nodup →
       (∀ p1 ∈ paths.map Prod.fst, ∀ p2 ∈ paths.map Prod.fst,
          convertPath p1 = convertPath p2 → p1 = p2) →
       (∀ p ∈ paths.map Prod.fst, objGet acc (convertPath p) = none) →
       ∀ p item, (p, item) ∈ paths →
         (item.map Prod.fst).Nodup →
         ∃ mm : MethodMap, objGet accF (convertPath p) = some mm ∧
           objGet mm "OPTIONS" = some .preflight ∧
           (∀ meth op, (meth, some op) ∈ item → meth ∈ httpMethods →
               idTruthy op.operationId = true → meth ≠ "options" →
             ∃ ed : OpEntry, objGet mm (strUpper meth) = some (.op ed) ∧
               ed.operationId = op.operationId.getD "" ∧ ed.openApiPath = p ∧
               ed.bunPath = convertPath p ∧ ed.method = strUpper meth) ∧
           (∀ M, M ≠ "OPTIONS" →
             (∀ meth op, (meth, some op) ∈ item → meth ∈ httpMethods →
               idTruthy op.operationId = true → strUpper meth ≠ M) →
             objGet mm M = none)) := by
  intro paths
  induction paths with
  | nil =>
      intro acc accF post w h
      simp only [buildPaths, Except.ok.injEq, Prod.mk.injEq] at h
      refine ⟨fun q _ => by rw [← h.1], fun _ _ _ p item hmem => ?_⟩
      simp at hmem
  | cons kv rest ih =>
      intro acc accF post w h
      obtain ⟨p0, item0⟩ := kv
      simp only [buildPaths] at h
      obtain ⟨trip1, hbm, h⟩ := bind_ok_inv h
      obtain ⟨m1, postItem, w1⟩ := trip1
      dsimp only at h
      obtain ⟨trip2, hrec, h⟩ := bind_ok_inv h
      obtain ⟨accR, postRest, wr⟩ := trip2
      dsimp only at h
      simp only [Except.ok.injEq, Prod.mk.injEq] at h
      obtain ⟨haccF, _hpost, _hw⟩ := h
      subst haccF
      obtain ⟨ihPres, ihFound⟩ := ih _ accR postRest wr hrec
      constructor
      · intro q hq
        rw [ihPres q (fun p' hp' => hq p' (List.mem_cons_of_mem _ hp'))]
        exact objGet_objSet_other acc (convertPath p0) _ q
          (Ne.symm (hq p0 (List.mem_cons_self _ _)))
      · intro hnd hinj hfresh p item hmem hndM
        simp only [List.map_cons, List.nodup_cons] at hnd
        rcases List.mem_cons.mp hmem with heq | hmem2
        · rw [Prod.mk.injEq] at heq
          obtain ⟨e1, e2⟩ := heq
          subst e1
          subst e2
          have hm0 : ((objGet acc (convertPath p)).getD ([] : MethodMap)) = [] := by
            rw [hfresh p (List.mem_cons_self _ _)]
            rfl
          rw [hm0] at hbm
          refine ⟨objSet m1 "OPTIONS" .preflight, ?_, objGet_objSet_self _ _ _, ?_, ?_⟩
          · rw [ihPres (convertPath p) ?hne]
            · exact objGet_objSet_self _ _ _
            case hne =>
              intro p' hp' hcp
              have : p' = p := hinj p' (List.mem_cons_of_mem _ hp') p
                (List.mem_cons_self _ _) hcp
              subst this
              exact hnd.1 hp'
          · intro meth op hmemM hm hid hno
            obtain ⟨ed, hed, hprops⟩ := buildMethods_found reg gs p (convertPath p)
              item [] m1 postItem w1 hbm hndM meth op hmemM hm hid
            refine ⟨ed, ?_, hprops⟩
            rw [objGet_objSet_other m1 "OPTIONS" _ (strUpper meth)
              (strUpper_ne_OPTIONS meth hm hno), hed]
          · intro M hMopt hnoM
            rw [objGet_objSet_other m1 "OPTIONS" _ M hMopt]
            rw [buildMethods_preserve reg gs p (convertPath p) item [] m1 postItem w1
              hbm M hnoM]
            rfl
        · refine ihFound hnd.2
            (fun p1 hp1 p2 hp2 => hinj p1 (List.mem_cons_of_mem _ hp1) p2
              (List.mem_cons_of_mem _ hp2))
            (fun p' hp' => ?_) p item hmem2 hndM
          rw [objGet_objSet_other acc (convertPath p0) _ (convertPath p') ?hne]
          · exact hfresh p' (List.mem_cons_of_mem _ hp')
          case hne =>
            intro hcp
            have : p' = p0 := hinj p' (List.mem_cons_of_mem _ hp') p0
              (List.mem_cons_self _ _) hcp
            subst this
            exact hnd.1 hp'

/-- C4 (amended): for every contract whose path templates are duplicate-free
and conflict-free (no two templates normalize to the same host path, none
normalizes to the catch-all key `/*`) and whose path items have
duplicate-free method keys, a successful `routes()` build produces a table
with: the catch-all entry at `/*`; for every documented path, a method map
holding the synthetic `OPTIONS` preflight entry, exactly one operation entry
per documented (path, method) pair whose operation has a truthy operationId
(for non-`options` methods — a documented `options` operation is overwritten
by the synthetic preflight entry, per the counterexample), no entry at any
other method, and no table entry at any other path. -/
theorem route_table_shape (doc : Contract) (reg : Registry) (out : BuildOut)
    (hbuild : buildRoutes doc reg = .ok out)
    (hnodupP : (doc.paths.map Prod.fst).Nodup)
    (hinj : ∀ p1 ∈ doc.paths.map Prod.fst, ∀ p2 ∈ doc.paths.map Prod.fst,
        convertPath p1 = convertPath p2 → p1 = p2)
    (hnostar : ∀ p ∈ doc.paths.map Prod.fst, convertPath p ≠ "/*")
    (hnodupM : ∀ pi ∈ doc.paths, ((pi.2 : PathItem).map Prod.fst).Nodup) :
    objGet out.table "/*" = some .catchAll ∧
    (∀ p item, (p, item) ∈ doc.paths →
      ∃ mm : MethodMap, objGet out.table (convertPath p) = some (.methods mm) ∧
        objGet mm "OPTIONS" = some .preflight ∧
        (∀ meth op, (meth, some op) ∈ item → meth ∈ httpMethods →
            idTruthy op.operationId = true → meth ≠ "options" →
          ∃ ed : OpEntry, objGet mm (strUpper meth) = some (.op ed) ∧
            ed.operationId = op.operationId.getD "" ∧ ed.openApiPath = p ∧
            ed.bunPath = convertPath p ∧ ed.method = strUpper meth) ∧
        (∀ M, M ≠ "OPTIONS" →
          (∀ meth op, (meth, some op) ∈ item → meth ∈ httpMethods →
            idTruthy op.operationId = true → strUpper meth ≠ M) →
          objGet mm M = none)) ∧
    (∀ q, q ≠ "/*" → (∀ p ∈ doc.paths.map Prod.fst, convertPath p ≠ q) →
      objGet out.table q = none) := by
  unfold buildRoutes at hbuild
  obtain ⟨pr, _hcomp, hbuild⟩ := bind_ok_inv hbuild
  obtain ⟨reg1, postComps⟩ := pr
  dsimp only at hbuild
  obtain ⟨trip, hbp, hbuild⟩ := bind_ok_inv hbuild
  obtain ⟨t1, postPaths, warns1⟩ := trip
  dsimp only at hbuild
  simp only [Except.ok.injEq] at hbuild
  obtain ⟨hpres, hfound⟩ := buildPaths_spec reg1 (doc.security.getD [])
    doc.paths [] t1 postPaths warns1 hbp
  have htable : out.table =
      objSet (t1.map fun kv => (kv.1, RouteVal.methods kv.2)) "/*" .catchAll := by
    rw [← hbuild]
  refine ⟨?_, ?_, ?_⟩
  · rw [htable]
    exact objGet_objSet_self _ _ _
  · intro p item hmem
    have hpmem : p ∈ doc.paths.map Prod.fst := List.mem_map_of_mem Prod.fst hmem
    obtain ⟨mm, hmm, hopt, hper, hnone⟩ := hfound hnodupP hinj
      (fun p' _ => rfl) p item hmem (hnodupM (p, item) hmem)
    refine ⟨mm, ?_, hopt, hper, hnone⟩
    rw [htable, objGet_objSet_other _ _ _ _ (hnostar p hpmem), objGet_map_val, hmm]
    rfl
  · intro q hqstar hqno
    rw [htable, objGet_objSet_other _ _ _ _ hqstar, objGet_map_val, hpres q hqno]
    rfl

def docOneGet : Contract :=
  { componentSchemas := none, security := none,
    paths := [("/users/\x7bid\x7d", [("get", some opUserA)])] }

def outOneGet : BuildOut :=
  { table := [("/users/:id",
       .methods [("GET", .op
          { openApiPath := "/users/\x7bid\x7d", bunPath := "/users/:id",
            method := "GET", operationId := "getUserA",
            validators := { query := none, path := none, body := none, responses := [] },
            security := [] }),
         ("OPTIONS", .preflight)]),
      ("/*", .catchAll)],
    registry := [],
    postDoc := { componentSchemas := none, security := none,
                 paths := [("/users/\x7bid\x7d", [("get", some opUserA)])] },
    warnings := [] }

/-- Witness for `route_table_shape`: the theorem applied to a concrete
single-path contract, every hypothesis discharged on concrete data. -/
theorem route_table_shape_witness :
    objGet outOneGet.table "/*" = some .catchAll ∧
    (∀ p item, (p, item) ∈ docOneGet.paths →
      ∃ mm : MethodMap, objGet outOneGet.table (convertPath p) = some (.methods mm) ∧
        objGet mm "OPTIONS" = some .preflight ∧
        (∀ meth op, (meth, some op) ∈ item → meth ∈ httpMethods →
            idTruthy op.operationId = true → meth ≠ "options" →
          ∃ ed : OpEntry, objGet mm (strUpper meth) = some (.op ed) ∧
            ed.operationId = op.operationId.getD "" ∧ ed.openApiPath = p ∧
            ed.bunPath = convertPath p ∧ ed.method = strUpper meth) ∧
        (∀ M, M ≠ "OPTIONS" →
          (∀ meth op, (meth, some op) ∈ item → meth ∈ httpMethods →
            idTruthy op.operationId = true → strUpper meth ≠ M) →
          objGet mm M = none)) ∧
    (∀ q, q ≠ "/*" → (∀ p ∈ docOneGet.paths.map Prod.fst, convertPath p ≠ q) →
      objGet outOneGet.table q = none) :=
  route_table_shape docOneGet [] outOneGet rfl (by decide) (by decide) (by decide)
    (by decide)

/-! ## Idempotence of rebuilding (C2, amended) -/

theorem jget_jset_self : ∀ (l : JsonFields) (k : String) (v : Json),
    jget (jset l k v) k = some v
  | .nil, k, v => by simp [jset, jget]
  | .cons k0 w rest, k, v => by
      by_cases h : k0 = k
      · simp [jset, h, jget]
      · simp [jset, h, jget, jget_jset_self rest k v]
termination_by structural l => l

theorem jget_jset_other : ∀ (l : JsonFields) (k : String) (v : Json) (q : String),
    q ≠ k → jget (jset l k v) q = jget l q
  | .nil, k, v, q, h => by simp [jset, jget, Ne.symm h]
  | .cons k0 w rest, k, v, q, h => by
      by_cases h0 : k0 = k
      · subst h0
        simp [jset, jget, Ne.symm h]
      · by_cases h1 : k0 = q
        · simp [jset, h0, jget, h1, h]
        · simp [jset, h0, jget, h1, jget_jset_other rest k v q h]
termination_by structural l => l

theorem objSet_idem {α : Type} (l : List (String × α)) (k : String) (v : α) :
    objSet (objSet l k v) k v = objSet l k v := by
  induction l with
  | nil => simp [objSet]
  | cons kv rest ih =>
      obtain ⟨k0, w⟩ := kv
      by_cases h : k0 = k
      · simp [objSet, h]
      · simp [objSet, h, ih]

/-- `patchOwnProps` only rewrites the value stored under `properties`. -/
theorem patchOwnProps_jget_other : ∀ (l l1 : JsonFields),
    patchOwnProps l = .ok l1 → ∀ k : String, k ≠ "properties" →
    jget l1 k = jget l k
  | .nil, l1, h, k, hk => by
      simp only [patchOwnProps, Except.ok.injEq] at h
      rw [← h]
  | .cons k0 v rest, l1, h, k, hk => by
      simp only [patchOwnProps] at h
      by_cases h0 : k0 = "properties"
      · rw [if_pos h0] at h
        obtain ⟨v', hv, h⟩ := bind_ok_inv h
        obtain ⟨rest', hrest, h⟩ := bind_ok_inv h
        try dsimp only at h
        simp only [Except.ok.injEq] at h
        subst h
        have hkk0 : ¬(k0 = k) := by rw [h0]; exact Ne.symm hk
        simp [jget, hkk0, patchOwnProps_jget_other rest rest' hrest k hk]
      · rw [if_neg h0, exceptOkBind] at h
        obtain ⟨rest', hrest, h⟩ := bind_ok_inv h
        try dsimp only at h
        simp only [Except.ok.injEq] at h
        subst h
        by_cases h1 : k0 = k
        · simp [jget, h1]
        · simp [jget, h1, patchOwnProps_jget_other rest rest' hrest k hk]
termination_by structural l => l

/-- `patchOwnProps` commutes with assignment to a key other than
`properties` (whose value it passes through untouched). -/
theorem patchOwnProps_jset_comm : ∀ (l l1 : JsonFields),
    patchOwnProps l = .ok l1 → ∀ (k : String) (t : Json), k ≠ "properties" →
    patchOwnProps (jset l k t) = .ok (jset l1 k t)
  | .nil, l1, h, k, t, hk => by
      simp only [patchOwnProps, Except.ok.injEq] at h
      subst h
      simp only [jset, patchOwnProps]
      rw [if_neg hk, exceptOkBind]
      rfl
  | .cons k0 v rest, l1, h, k, t, hk => by
      simp only [patchOwnProps] at h
      by_cases h0 : k0 = "properties"
      · rw [if_pos h0] at h
        obtain ⟨v', hv, h⟩ := bind_ok_inv h
        obtain ⟨rest', hrest, h⟩ := bind_ok_inv h
        try dsimp only at h
        simp only [Except.ok.injEq] at h
        subst h
        have hkk0 : ¬(k0 = k) := by rw [h0]; exact Ne.symm hk
        have hcomm := patchOwnProps_jset_comm rest rest' hrest k t hk
        simp only [jset, if_neg hkk0, patchOwnProps, if_pos h0, hv, exceptOkBind,
          hcomm]
      · rw [if_neg h0, exceptOkBind] at h
        obtain ⟨rest', hrest, h⟩ := bind_ok_inv h
        try dsimp only at h
        simp only [Except.ok.injEq] at h
        subst h
        by_cases h1 : k0 = k
        · subst h1
          simp only [jset, if_pos rfl, patchOwnProps, if_neg h0, exceptOkBind,
            hrest]
          rfl
        · have hcomm := patchOwnProps_jset_comm rest rest' hrest k t hk
          simp only [jset, if_neg h1, patchOwnProps, if_neg h0, exceptOkBind,
            hcomm]
termination_by structural l => l

/-- `patchTypeVal` reads only the `type`, `format` and `items` keys. -/
theorem patchTypeVal_congr (l1 l2 : JsonFields)
    (ht : jget l1 "type" = jget l2 "type")
    (hf : jget l1 "format" = jget l2 "format")
    (hi : jget l1 "items" = jget l2 "items") :
    patchTypeVal l1 = patchTypeVal l2 := by
  unfold patchTypeVal
  rw [ht, hf, hi]

/-- A fired type patch stores a two-element array, never a string, so the
patch conditions do not fire again on the patched node. -/
theorem patchTypeVal_some_not_str (l : JsonFields) (tv : Json)
    (h : patchTypeVal l = .ok (some tv)) : ∀ s : String, tv ≠ .str s := by
  intro s
  unfold patchTypeVal at h
  by_cases c1 : (jget l "type" = some (.str "string") &&
      jget l "format" = some (.str "binary")) = true
  · rw [if_pos c1] at h
    simp only [Except.ok.injEq, Option.some.injEq] at h
    rw [← h]
    simp
  · rw [if_neg c1] at h
    by_cases c2 : jget l "type" = some (.str "array")
    · rw [if_pos c2] at h
      obtain ⟨it, hit, h⟩ := bind_ok_inv h
      by_cases c3 : it = some (.str "string")
      · rw [if_pos c3] at h
        obtain ⟨fmt, hfmt, h⟩ := bind_ok_inv h
        by_cases c4 : fmt = some (.str "binary")
        · rw [if_pos c4] at h
          simp only [Except.ok.injEq, Option.some.injEq] at h
          rw [← h]
          simp
        · rw [if_neg c4] at h
          simp at h
      · rw [if_neg c3] at h
        simp at h
    · rw [if_neg c2] at h
      simp at h

theorem exceptMapOk {e a b : Type} (f : a → b) (x : a) :
    (f <$> (Except.ok x : Except e a)) = .ok (f x) := rfl

theorem map_ok_inv {e a b : Type} {f : a → b} {x : Except e a} {r : b}
    (h : f <$> x = .ok r) : ∃ v, x = .ok v ∧ f v = r := by
  cases x with
  | error err => exact absurd h (by simp [Except.map])
  | ok v =>
      refine ⟨v, rfl, ?_⟩
      rw [exceptMapOk] at h
      exact Except.ok.inj h

mutual

/-- Re-patching a successfully patched schema node is the identity: the
fired `type` patches store arrays, which no patch condition matches, and
the recursion is idempotent below. -/
theorem patchBinaryTypes_idem : ∀ (s t : Json), patchBinaryTypes s = .ok t →
    patchBinaryTypes t = .ok t
  | .null, t, h => by
      simp only [patchBinaryTypes, Except.ok.injEq] at h
      subst h; rfl
  | .bool b, t, h => by
      simp only [patchBinaryTypes, Except.ok.injEq] at h
      subst h; rfl
  | .num n, t, h => by
      simp only [patchBinaryTypes, Except.ok.injEq] at h
      subst h; rfl
  | .str s, t, h => by
      simp only [patchBinaryTypes, Except.ok.injEq] at h
      subst h; rfl
  | .arr xs, t, h => by
      simp only [patchBinaryTypes, Except.ok.injEq] at h
      subst h; rfl
  | .obj fs, t, h => by
      simp only [patchBinaryTypes] at h
      obtain ⟨nt, hnt, h⟩ := bind_ok_inv h
      obtain ⟨f1, hf1, h⟩ := bind_ok_inv h
      try dsimp only at h
      have hprops := patchOwnProps_idem fs f1 hf1
      cases nt with
      | none =>
          simp only [Except.ok.injEq] at h
          subst h
          have hty : patchTypeVal f1 = .ok none := by
            rw [patchTypeVal_congr f1 fs
              (patchOwnProps_jget_other fs f1 hf1 "type" (by decide))
              (patchOwnProps_jget_other fs f1 hf1 "format" (by decide))
              (patchOwnProps_jget_other fs f1 hf1 "items" (by decide))]
            exact hnt
          simp only [patchBinaryTypes, hty, exceptOkBind, hprops]
      | some tv =>
          simp only [Except.ok.injEq] at h
          subst h
          have hnstr := patchTypeVal_some_not_str fs tv hnt
          have hty : patchTypeVal (jset f1 "type" tv) = .ok none := by
            unfold patchTypeVal
            rw [jget_jset_self]
            rw [if_neg (show ¬((some tv = some (Json.str "string") &&
                jget (jset f1 "type" tv) "format" = some (Json.str "binary")) = true) by
              simp [hnstr "string"])]
            rw [if_neg (show ¬(some tv = some (Json.str "array")) from
              fun hc => hnstr "array" (Option.some.inj hc))]
          have hcomm := patchOwnProps_jset_comm f1 f1 hprops "type" tv (by decide)
          simp only [patchBinaryTypes, hty, exceptOkBind, hcomm]
termination_by structural s => s

theorem patchOwnProps_idem : ∀ (l l1 : JsonFields), patchOwnProps l = .ok l1 →
    patchOwnProps l1 = .ok l1
  | .nil, l1, h => by
      simp only [patchOwnProps, Except.ok.injEq] at h
      subst h; rfl
  | .cons k0 v rest, l1, h => by
      simp only [patchOwnProps] at h
      by_cases h0 : k0 = "properties"
      · rw [if_pos h0] at h
        obtain ⟨v', hv, h⟩ := bind_ok_inv h
        obtain ⟨rest', hrest, h⟩ := bind_ok_inv h
        try dsimp only at h
        simp only [Except.ok.injEq] at h
        subst h
        simp only [patchOwnProps, if_pos h0, patchChildren_idem v v' hv,
          exceptOkBind, patchOwnProps_idem rest rest' hrest]
      · rw [if_neg h0, exceptOkBind] at h
        obtain ⟨rest', hrest, h⟩ := bind_ok_inv h
        try dsimp only at h
        simp only [Except.ok.injEq] at h
        subst h
        simp only [patchOwnProps, if_neg h0, exceptOkBind,
          patchOwnProps_idem rest rest' hrest]
termination_by structural l => l

theorem patchChildren_idem : ∀ (j j1 : Json), patchChildren j = .ok j1 →
    patchChildren j1 = .ok j1
  | .null, j1, h => by
      simp only [patchChildren, Except.ok.injEq] at h
      subst h; rfl
  | .bool b, j1, h => by
      simp only [patchChildren, Except.ok.injEq] at h
      subst h; rfl
  | .num n, j1, h => by
      simp only [patchChildren, Except.ok.injEq] at h
      subst h; rfl
  | .str s, j1, h => by
      simp only [patchChildren, Except.ok.injEq] at h
      subst h; rfl
  | .obj pfs, j1, h => by
      simp only [patchChildren] at h
      obtain ⟨pfs', hp, hmap⟩ := map_ok_inv h
      rw [← hmap]
      simp only [patchChildren, patchFields_idem pfs pfs' hp, exceptMapOk]
  | .arr xs, j1, h => by
      simp only [patchChildren] at h
      obtain ⟨xs', hp, hmap⟩ := map_ok_inv h
      rw [← hmap]
      simp only [patchChildren, patchElems_idem xs xs' hp, exceptMapOk]
termination_by structural j => j

theorem patchFields_idem : ∀ (l l1 : JsonFields), patchFields l = .ok l1 →
    patchFields l1 = .ok l1
  | .nil, l1, h => by
      simp only [patchFields, Except.ok.injEq] at h
      subst h; rfl
  | .cons k0 v rest, l1, h => by
      simp only [patchFields] at h
      obtain ⟨v', hv, h⟩ := bind_ok_inv h
      obtain ⟨rest', hrest, h⟩ := bind_ok_inv h
      try dsimp only at h
      simp only [Except.ok.injEq] at h
      subst h
      simp only [patchFields, patchBinaryTypes_idem v v' hv, exceptOkBind,
        patchFields_idem rest rest' hrest]
termination_by structural l => l

theorem patchElems_idem : ∀ (l l1 : JsonList), patchElems l = .ok l1 →
    patchElems l1 = .ok l1
  | .nil, l1, h => by
      simp only [patchElems, Except.ok.injEq] at h
      subst h; rfl
  | .cons v rest, l1, h => by
      simp only [patchElems] at h
      obtain ⟨v', hv, h⟩ := bind_ok_inv h
      obtain ⟨rest', hrest, h⟩ := bind_ok_inv h
      try dsimp only at h
      simp only [Except.ok.injEq] at h
      subst h
      simp only [patchElems, patchBinaryTypes_idem v v' hv, exceptOkBind,
        patchElems_idem rest rest' hrest]
termination_by structural l => l

end

/-- Patching never touches the `$ref` key of a node. -/
theorem patchBinaryTypes_refOf (s s' : Json) (h : patchBinaryTypes s = .ok s') :
    refOf s' = refOf s := by
  cases s with
  | obj fs =>
      simp only [patchBinaryTypes] at h
      obtain ⟨nt, hnt, h⟩ := bind_ok_inv h
      obtain ⟨f1, hf1, h⟩ := bind_ok_inv h
      try dsimp only at h
      cases nt with
      | none =>
          simp only [Except.ok.injEq] at h
          subst h
          simp only [refOf]
          exact patchOwnProps_jget_other fs f1 hf1 "$ref" (by decide)
      | some tv =>
          simp only [Except.ok.injEq] at h
          subst h
          simp only [refOf]
          rw [jget_jset_other f1 "type" tv "$ref" (by decide)]
          exact patchOwnProps_jget_other fs f1 hf1 "$ref" (by decide)
  | null => simp only [patchBinaryTypes, Except.ok.injEq] at h; subst h; rfl
  | bool b => simp only [patchBinaryTypes, Except.ok.injEq] at h; subst h; rfl
  | num n => simp only [patchBinaryTypes, Except.ok.injEq] at h; subst h; rfl
  | str s0 => simp only [patchBinaryTypes, Except.ok.injEq] at h; subst h; rfl
  | arr xs => simp only [patchBinaryTypes, Except.ok.injEq] at h; subst h; rfl

theorem contentSchema_mk (c : List (String × Option Json)) (ct : String) :
    contentSchema { content := c } ct = (objGet c ct).bind id := rfl

/-- Second run of body compilation when the first run patched the
multipart schema in place. -/
theorem compileBody_second_mp (reg : Registry) (c : List (String × Option Json))
    (s' : Json)
    (hjson : (objGet c "application/json").bind id = none)
    (hrf : refOf s' = none ∨ ∃ rv, refOf s' = some rv ∧ truthy rv = false)
    (hp : patchBinaryTypes s' = .ok s') :
    compileBody reg { content := objSet c "multipart/form-data" (some s') } =
      .ok (some s', { content := objSet c "multipart/form-data" (some s') }, []) := by
  unfold compileBody
  simp only [contentSchema_mk]
  rw [objGet_objSet_other c "multipart/form-data" _ "application/json" (by decide),
    hjson]
  dsimp only [Option.isNone]
  rw [objGet_objSet_self]
  dsimp only [Option.bind, id]
  rcases hrf with hn | ⟨rv, hsome, hfalse⟩
  · rw [hn]
    rw [if_pos rfl]
    rw [hp, exceptOkBind]
    rw [objSet_idem]
  · rw [hsome]
    dsimp only
    rw [if_neg (by rw [hfalse]; exact Bool.false_ne_true)]
    rw [if_pos rfl]
    rw [hp, exceptOkBind]
    rw [objSet_idem]

/-- Second run of body compilation when the first run patched the
urlencoded schema in place. -/
theorem compileBody_second_url (reg : Registry) (c : List (String × Option Json))
    (s' : Json)
    (hjson : (objGet c "application/json").bind id = none)
    (hmp : (objGet c "multipart/form-data").bind id = none)
    (hrf : refOf s' = none ∨ ∃ rv, refOf s' = some rv ∧ truthy rv = false)
    (hp : patchBinaryTypes s' = .ok s') :
    compileBody reg
        { content := objSet c "application/x-www-form-urlencoded" (some s') } =
      .ok (some s',
        { content := objSet c "application/x-www-form-urlencoded" (some s') }, []) := by
  unfold compileBody
  simp only [contentSchema_mk]
  rw [objGet_objSet_other c "application/x-www-form-urlencoded" _ "application/json"
      (by decide), hjson]
  rw [objGet_objSet_other c "application/x-www-form-urlencoded" _ "multipart/form-data"
      (by decide), hmp]
  dsimp only [Option.isNone]
  rw [objGet_objSet_self]
  dsimp only [Option.bind, id]
  rcases hrf with hn | ⟨rv, hsome, hfalse⟩
  · rw [hn]
    rw [if_pos rfl]
    rw [hp, exceptOkBind]
    rw [objSet_idem]
  · rw [hsome]
    dsimp only
    rw [if_neg (by rw [hfalse]; exact Bool.false_ne_true)]
    rw [if_pos rfl]
    rw [hp, exceptOkBind]
    rw [objSet_idem]

/-- Re-running body compilation on the post-state request body reproduces
the same validator, post-state and warnings: the only mutation — the
in-place multipart/urlencoded binary patch — is idempotent. -/
theorem compileBody_idem (reg : Registry) (rb : RequestBody) (v : Option Json)
    (rb' : RequestBody) (w : List Warning)
    (h : compileBody reg rb = .ok (v, rb', w)) :
    compileBody reg rb' = .ok (v, rb', w) := by
  unfold compileBody at h
  cases hj : contentSchema rb "application/json" with
  | some s =>
      rw [hj] at h
      dsimp only [Option.isNone] at h
      cases href : refOf s with
      | some rv =>
          rw [href] at h
          try dsimp only at h
          by_cases htr : truthy rv = true
          · rw [if_pos htr] at h
            cases rv with
            | str rstr =>
                dsimp only at h
                cases hreg : objGet reg (lastSeg rstr) with
                | some compiled =>
                    rw [hreg] at h
                    try dsimp only at h
                    simp only [Except.ok.injEq, Prod.mk.injEq] at h
                    obtain ⟨hv, hrb, hw⟩ := h
                    subst hv; subst hrb; subst hw
                    simp [compileBody, hj, href, htr, hreg]
                | none =>
                    rw [hreg] at h
                    try dsimp only at h
                    simp only [Except.ok.injEq, Prod.mk.injEq] at h
                    obtain ⟨hv, hrb, hw⟩ := h
                    subst hv; subst hrb; subst hw
                    simp [compileBody, hj, href, htr, hreg]
            | null => rw [truthy] at htr; simp at htr
            | bool b => simp at h
            | num n => simp at h
            | arr xs => simp at h
            | obj fs => simp at h
          · rw [if_neg htr] at h
            simp only [Bool.false_eq_true, if_false, Except.ok.injEq,
              Prod.mk.injEq] at h
            obtain ⟨hv, hrb, hw⟩ := h
            subst hv; subst hrb; subst hw
            simp [compileBody, hj, href, htr]
      | none =>
          rw [href] at h
          try dsimp only at h
          simp only [Bool.false_eq_true, if_false, Except.ok.injEq,
            Prod.mk.injEq] at h
          obtain ⟨hv, hrb, hw⟩ := h
          subst hv; subst hrb; subst hw
          simp [compileBody, hj, href]
  | none =>
      rw [hj] at h
      dsimp only [Option.isNone] at h
      have hj0 : (objGet rb.content "application/json").bind id = none := hj
      cases hmp : contentSchema rb "multipart/form-data" with
      | some s =>
          rw [hmp] at h
          try dsimp only at h
          cases href : refOf s with
          | some rv =>
              rw [href] at h
              try dsimp only at h
              by_cases htr : truthy rv = true
              · rw [if_pos htr] at h
                cases rv with
                | str rstr =>
                    dsimp only at h
                    cases hreg : objGet reg (lastSeg rstr) with
                    | some compiled =>
                        rw [hreg] at h
                        try dsimp only at h
                        simp only [Except.ok.injEq, Prod.mk.injEq] at h
                        obtain ⟨hv, hrb, hw⟩ := h
                        subst hv; subst hrb; subst hw
                        simp [compileBody, hj, hmp, href, htr, hreg]
                    | none =>
                        rw [hreg] at h
                        try dsimp only at h
                        simp only [Except.ok.injEq, Prod.mk.injEq] at h
                        obtain ⟨hv, hrb, hw⟩ := h
                        subst hv; subst hrb; subst hw
                        simp [compileBody, hj, hmp, href, htr, hreg]
                | null => rw [truthy] at htr; simp at htr
                | bool b => simp at h
                | num n => simp at h
                | arr xs => simp at h
                | obj fs => simp at h
              · rw [if_neg htr] at h
                rw [if_pos rfl] at h
                obtain ⟨s2, hp, h⟩ := bind_ok_inv h
                try dsimp only at h
                simp only [Except.ok.injEq, Prod.mk.injEq] at h
                obtain ⟨hv, hrb, hw⟩ := h
                subst hv; subst hrb; subst hw
                have href2 : refOf s2 = some rv := by
                  rw [patchBinaryTypes_refOf s s2 hp, href]
                exact compileBody_second_mp reg rb.content s2 hj0
                  (Or.inr ⟨rv, href2, by simpa using htr⟩)
                  (patchBinaryTypes_idem s s2 hp)
          | none =>
              rw [href] at h
              try dsimp only at h
              rw [if_pos rfl] at h
              obtain ⟨s2, hp, h⟩ := bind_ok_inv h
              try dsimp only at h
              simp only [Except.ok.injEq, Prod.mk.injEq] at h
              obtain ⟨hv, hrb, hw⟩ := h
              subst hv; subst hrb; subst hw
              have href2 : refOf s2 = none := by
                rw [patchBinaryTypes_refOf s s2 hp, href]
              exact compileBody_second_mp reg rb.content s2 hj0 (Or.inl href2)
                (patchBinaryTypes_idem s s2 hp)
      | none =>
          rw [hmp] at h
          try dsimp only at h
          have hmp0 : (objGet rb.content "multipart/form-data").bind id = none := hmp
          cases hurl : contentSchema rb "application/x-www-form-urlencoded" with
          | some s =>
              rw [hurl] at h
              try dsimp only at h
              cases href : refOf s with
              | some rv =>
                  rw [href] at h
                  try dsimp only at h
                  by_cases htr : truthy rv = true
                  · rw [if_pos htr] at h
                    cases rv with
                    | str rstr =>
                        dsimp only at h
                        cases hreg : objGet reg (lastSeg rstr) with
                        | some compiled =>
                            rw [hreg] at h
                            try dsimp only at h
                            simp only [Except.ok.injEq, Prod.mk.injEq] at h
                            obtain ⟨hv, hrb, hw⟩ := h
                            subst hv; subst hrb; subst hw
                            simp [compileBody, hj, hmp, hurl, href, htr, hreg]
                        | none =>
                            rw [hreg] at h
                            try dsimp only at h
                            simp only [Except.ok.injEq, Prod.mk.injEq] at h
                            obtain ⟨hv, hrb, hw⟩ := h
                            subst hv; subst hrb; subst hw
                            simp [compileBody, hj, hmp, hurl, href, htr, hreg]
                    | null => rw [truthy] at htr; simp at htr
                    | bool b => simp at h
                    | num n => simp at h
                    | arr xs => simp at h
                    | obj fs => simp at h
                  · rw [if_neg htr] at h
                    rw [if_pos rfl] at h
                    obtain ⟨s2, hp, h⟩ := bind_ok_inv h
                    try dsimp only at h
                    simp only [Except.ok.injEq, Prod.mk.injEq] at h
                    obtain ⟨hv, hrb, hw⟩ := h
                    subst hv; subst hrb; subst hw
                    have href2 : refOf s2 = some rv := by
                      rw [patchBinaryTypes_refOf s s2 hp, href]
                    exact compileBody_second_url reg rb.content s2 hj0 hmp0
                      (Or.inr ⟨rv, href2, by simpa using htr⟩)
                      (patchBinaryTypes_idem s s2 hp)
              | none =>
                  rw [href] at h
                  try dsimp only at h
                  rw [if_pos rfl] at h
                  obtain ⟨s2, hp, h⟩ := bind_ok_inv h
                  try dsimp only at h
                  simp only [Except.ok.injEq, Prod.mk.injEq] at h
                  obtain ⟨hv, hrb, hw⟩ := h
                  subst hv; subst hrb; subst hw
                  have href2 : refOf s2 = none := by
                    rw [patchBinaryTypes_refOf s s2 hp, href]
                  exact compileBody_second_url reg rb.content s2 hj0 hmp0
                    (Or.inl href2) (patchBinaryTypes_idem s s2 hp)
          | none =>
              rw [hurl] at h
              try dsimp only at h
              simp only [Except.ok.injEq, Prod.mk.injEq] at h
              obtain ⟨hv, hrb, hw⟩ := h
              subst hv; subst hrb; subst hw
              simp [compileBody, hj, hmp, hurl]


/-- Re-running validator compilation on the post-state operation reproduces
the same validators, the same post-state and the same warnings. -/
theorem compileValidators_idem (reg : Registry) (op : Operation) (v : Validators)
    (op' : Operation) (w : List Warning)
    (h : compileValidators reg op = .ok (v, op', w)) :
    compileValidators reg op' = .ok (v, op', w) ∧
    op'.operationId = op.operationId ∧ op'.security = op.security := by
  unfold compileValidators at h
  obtain ⟨bt, hbody, h⟩ := bind_ok_inv h
  obtain ⟨bv, postRB, w1⟩ := bt
  try dsimp only at h
  obtain ⟨rt, hresp, h⟩ := bind_ok_inv h
  obtain ⟨respVs, w2⟩ := rt
  try dsimp only at h
  simp only [Except.ok.injEq, Prod.mk.injEq] at h
  obtain ⟨hv, hop, hw⟩ := h
  subst hv; subst hop; subst hw
  refine ⟨?_, rfl, rfl⟩
  unfold compileValidators
  dsimp only
  cases hrb : op.requestBody with
  | none =>
      rw [hrb] at hbody
      try dsimp only at hbody
      simp only [Except.ok.injEq, Prod.mk.injEq] at hbody
      obtain ⟨hbv, hpost, hw1⟩ := hbody
      subst hbv; subst hpost; subst hw1
      rw [exceptOkBind]
      dsimp only
      rw [hresp, exceptOkBind]
  | some rb =>
      rw [hrb] at hbody
      try dsimp only at hbody
      obtain ⟨bt2, hcb, hbody⟩ := bind_ok_inv hbody
      obtain ⟨cv, rb2, wB⟩ := bt2
      try dsimp only at hbody
      simp only [Except.ok.injEq, Prod.mk.injEq] at hbody
      obtain ⟨hbv, hpost, hw1⟩ := hbody
      subst hbv; subst hpost; subst hw1
      dsimp only
      rw [compileBody_idem reg rb cv rb2 wB hcb, exceptOkBind]
      try dsimp only
      rw [hresp]
      rfl

/-- Re-running the method loop on the post-state item reproduces the same
method map, post-state and warnings. -/
theorem buildMethods_idem (reg : Registry) (gs : List Requirement) (p bp : String) :
    ∀ (item : PathItem) (m0 m1 : MethodMap) (post : PathItem) (w : List Warning),
      buildMethods reg gs p bp item m0 = .ok (m1, post, w) →
      buildMethods reg gs p bp post m0 = .ok (m1, post, w) := by
  intro item
  induction item with
  | nil =>
      intro m0 m1 post w h
      simp only [buildMethods, Except.ok.injEq, Prod.mk.injEq] at h
      obtain ⟨h1, h2, h3⟩ := h
      subst h1; subst h2; subst h3
      rfl
  | cons kv rest ih =>
      intro m0 m1 post w h
      obtain ⟨meth0, oop0⟩ := kv
      simp only [buildMethods] at h
      by_cases hm : meth0 ∈ httpMethods
      · rw [if_pos hm] at h
        cases oop0 with
        | none =>
            obtain ⟨trip, hrec, h⟩ := bind_ok_inv h
            obtain ⟨mF, postRest, wr⟩ := trip
            try dsimp only at h
            simp only [Except.ok.injEq, Prod.mk.injEq] at h
            obtain ⟨h1, h2, h3⟩ := h
            subst h1; subst h2; subst h3
            simp only [buildMethods, if_pos hm]
            rw [ih m0 mF postRest wr hrec]
            rfl
        | some op =>
            by_cases hid : idTruthy op.operationId = true
            · simp only [hid, if_true] at h
              obtain ⟨ct, hcv, h⟩ := bind_ok_inv h
              obtain ⟨v, opPost, w0⟩ := ct
              try dsimp only at h
              obtain ⟨trip, hrec, h⟩ := bind_ok_inv h
              obtain ⟨mF, postRest, wr⟩ := trip
              try dsimp only at h
              simp only [Except.ok.injEq, Prod.mk.injEq] at h
              obtain ⟨h1, h2, h3⟩ := h
              subst h1; subst h2; subst h3
              obtain ⟨hcv2, hopid, hsec⟩ := compileValidators_idem reg op v opPost w0 hcv
              simp only [buildMethods, if_pos hm, hopid, hsec, hid, if_true]
              rw [hcv2, exceptOkBind]
              dsimp only
              rw [ih _ mF postRest wr hrec]
              rfl
            · simp only [hid, if_false] at h
              obtain ⟨trip, hrec, h⟩ := bind_ok_inv h
              obtain ⟨mF, postRest, wr⟩ := trip
              try dsimp only at h
              simp only [Except.ok.injEq, Prod.mk.injEq] at h
              obtain ⟨h1, h2, h3⟩ := h
              subst h1; subst h2; subst h3
              simp only [buildMethods, if_pos hm, hid, if_false]
              rw [ih m0 mF postRest wr hrec]
              rfl
      · rw [if_neg hm] at h
        obtain ⟨trip, hrec, h⟩ := bind_ok_inv h
        obtain ⟨mF, postRest, wr⟩ := trip
        try dsimp only at h
        simp only [Except.ok.injEq, Prod.mk.injEq] at h
        obtain ⟨h1, h2, h3⟩ := h
        subst h1; subst h2; subst h3
        simp only [buildMethods, if_neg hm]
        rw [ih m0 mF postRest wr hrec]
        rfl

/-- Re-running the path loop on the post-state paths reproduces the same
table, post-state and warnings. -/
theorem buildPaths_idem (reg : Registry) (gs : List Requirement) :
    ∀ (paths : List (String × PathItem)) (acc accF : List (String × MethodMap))
      (post : List (String × PathItem)) (w : List Warning),
      buildPaths reg gs paths acc = .ok (accF, post, w) →
      buildPaths reg gs post acc = .ok (accF, post, w) := by
  intro paths
  induction paths with
  | nil =>
      intro acc accF post w h
      simp only [buildPaths, Except.ok.injEq, Prod.mk.injEq] at h
      obtain ⟨h1, h2, h3⟩ := h
      subst h1; subst h2; subst h3
      rfl
  | cons kv rest ih =>
      intro acc accF post w h
      obtain ⟨p0, item0⟩ := kv
      simp only [buildPaths] at h
      obtain ⟨t1, hbm, h⟩ := bind_ok_inv h
      obtain ⟨m1, postItem, w1⟩ := t1
      try dsimp only at h
      obtain ⟨t2, hrec, h⟩ := bind_ok_inv h
      obtain ⟨accR, postRest, wr⟩ := t2
      try dsimp only at h
      simp only [Except.ok.injEq, Prod.mk.injEq] at h
      obtain ⟨h1, h2, h3⟩ := h
      subst h1; subst h2; subst h3
      simp only [buildPaths]
      rw [buildMethods_idem reg gs p0 (convertPath p0) item0 _ m1 postItem w1 hbm,
        exceptOkBind]
      dsimp only
      rw [ih _ accR postRest wr hrec]
      rfl

/-- C2 (amended): for a contract with no component schemas, re-invoking
`routes()` on the post-state left by a successful first call succeeds and
reproduces the very same build output — in particular a functionally
equivalent (here: identical) route table with the same path keys, methods
and validators.  (With component schemas present, the second call instead
throws on the duplicate `addSchema` key, per the counterexample.) -/
theorem routes_idempotent_without_component_schemas (doc : Contract)
    (reg : Registry) (out : BuildOut)
    (hc : doc.componentSchemas = none)
    (h : buildRoutes doc reg = .ok out) :
    buildRoutes out.postDoc out.registry = .ok out := by
  unfold buildRoutes at h
  rw [hc] at h
  try dsimp only at h
  rw [exceptOkBind] at h
  try dsimp only at h
  obtain ⟨trip, hbp, h⟩ := bind_ok_inv h
  obtain ⟨t1, postPaths, warns1⟩ := trip
  try dsimp only at h
  simp only [Except.ok.injEq] at h
  subst h
  unfold buildRoutes
  dsimp only
  rw [exceptOkBind]
  dsimp only
  rw [buildPaths_idem reg (doc.security.getD []) doc.paths [] t1 postPaths warns1 hbp,
    exceptOkBind]
  rw [preBuildScan_on_empty_routes_never_warns postPaths [],
    preBuildScan_on_empty_routes_never_warns doc.paths []]

/-- Witness for `routes_idempotent_without_component_schemas` at a concrete
contract without component schemas: the second build reproduces the first
build's output exactly. -/
theorem routes_idempotent_without_component_schemas_witness :
    buildRoutes outOneGet.postDoc outOneGet.registry = .ok outOneGet :=
  routes_idempotent_without_component_schemas docOneGet [] outOneGet rfl rfl
